import Mathlib

/-!
# Verification of the smailo automation scheduling / safe-fetch engine

Shallow embedding of `src/server/src/services/cronManager.ts` (and the
`runTriggeredJobs` entry point called from `src/server/src/routes/app.ts`).

Modelling conventions:
* JS strings are modelled as `List Char`; the handful of string operations the
  source uses (`split`, `trim`, `startsWith`, `slice`, `toLowerCase`, regex
  tests) are implemented below as structurally recursive functions so that
  every definition evaluates inside the kernel.
* JS numbers appearing in cron-field parsing are modelled as `Option Int`,
  with `none` playing the role of `NaN` (comparisons against `none` are
  `false`, arithmetic with `none` is `none`).  `Number(s)` on a non-integral
  numeric literal (a string containing a `.`) is modelled as `NaN`; every
  theorem that depends on field matching restricts to well-formed cron fields
  (digits, `*`, `-`, `/`, `,` only), where this model is exact.
* Values stored in the append-only data store are JSON values; JSON numbers
  are modelled as `Rat` (exact arithmetic; the claims' numeric examples are
  integer-valued, where IEEE doubles are also exact).
* External effects (DNS lookup, the HTTPS response, `JSON.parse`, WHATWG URL
  parsing, the `node-cron` `validate` function) are inputs/parameters of the
  embedded functions: each embedded handler is a pure function of the
  environment's answers.
-/

/-! ## Character-list string library (models of the JS string operations) -/

/-- Model of JS `String.prototype.split(sep)` for a one-character separator:
splits on every occurrence, keeping empty pieces (`"".split('.') = [""]`). -/
def splitOnC (sep : Char) : List Char → List (List Char)
  | [] => [[]]
  | c :: rest =>
    if c = sep then [] :: splitOnC sep rest
    else
      match splitOnC sep rest with
      | [] => [[c]]
      | g :: gs => (c :: g) :: gs

/-- Whitespace recognised by JS `trim` / `\s` (ASCII part; hostnames and cron
expressions in this system contain no exotic Unicode whitespace). -/
def isJsWs (c : Char) : Bool :=
  c = ' ' || c = '\t' || c = '\n' || c = '\r'

/-- Model of JS `s.trim()`. -/
def jsTrim (cs : List Char) : List Char :=
  ((cs.dropWhile isJsWs).reverse.dropWhile isJsWs).reverse

/-- Collect maximal runs of non-whitespace characters. -/
def wsTokens : List Char → List (List Char)
  | [] => []
  | c :: rest =>
    if isJsWs c then wsTokens rest
    else
      match rest with
      | [] => [[c]]
      | r :: _ =>
        if isJsWs r then [c] :: wsTokens rest
        else
          match wsTokens rest with
          | [] => [[c]]
          | g :: gs => (c :: g) :: gs

/-- Model of JS `s.trim().split(/\s+/)` (after trimming, splitting on runs of
whitespace; the empty string still yields `[""]`, as in JS). -/
def jsTrimSplitWs (cs : List Char) : List (List Char) :=
  let t := jsTrim cs
  if t = [] then [[]] else wsTokens t

/-- ASCII lowercasing (model of `toLowerCase` on the ASCII hostnames this code
handles). -/
def toLowerC (c : Char) : Char :=
  if 'A' ≤ c ∧ c ≤ 'Z' then Char.ofNat (c.toNat + 32) else c

def toLowerL (cs : List Char) : List Char := cs.map toLowerC

def isDigitC (c : Char) : Bool := '0' ≤ c && c ≤ '9'

def isHexDigitC (c : Char) : Bool :=
  isDigitC c || ('a' ≤ c && c ≤ 'f') || ('A' ≤ c && c ≤ 'F')

def digitValC (c : Char) : Nat := c.toNat - 48

def hexValC (c : Char) : Nat :=
  if isDigitC c then c.toNat - 48
  else if 'a' ≤ c ∧ c ≤ 'f' then c.toNat - 87
  else c.toNat - 55

/-- Decimal value of a list of digit characters (the value `Number` gives an
all-digits string). -/
def digitsVal (cs : List Char) : Nat :=
  cs.foldl (fun a c => 10 * a + digitValC c) 0

/-- Hexadecimal value of a list of hex-digit characters. -/
def hexDigitsVal (cs : List Char) : Nat :=
  cs.foldl (fun a c => 16 * a + hexValC c) 0

def allDigits (cs : List Char) : Bool := cs ≠ [] && cs.all isDigitC

/-- Decimal digit character for `n < 10`. -/
def digitChar : Nat → Char
  | 0 => '0' | 1 => '1' | 2 => '2' | 3 => '3' | 4 => '4'
  | 5 => '5' | 6 => '6' | 7 => '7' | 8 => '8' | _ => '9'

/-- Decimal rendering of a natural number (model of JS number-to-string
conversion in template literals, for the values produced by this code).
Fueled structural recursion; fuel `n + 1` always suffices since the number of
decimal digits of `n` is at most `n + 1`. -/
def natReprAux : Nat → Nat → List Char
  | 0, _ => []
  | fuel + 1, n =>
    if n < 10 then [digitChar n]
    else natReprAux fuel (n / 10) ++ [digitChar (n % 10)]

def natReprL (n : Nat) : List Char := natReprAux (n + 1) n

/-! ## JS numeric conversion models -/

/-- Model of JS `parseInt(s, 10)`: skip leading whitespace, optional sign,
then the longest prefix of decimal digits; `none` (= `NaN`) if there is no
digit. Trailing garbage is ignored, as in JS. -/
def jsParseIntDec (cs : List Char) : Option Int :=
  let t := cs.dropWhile isJsWs
  match t with
  | '-' :: rest =>
    let ds := rest.takeWhile isDigitC
    if ds = [] then none else some (-(digitsVal ds : Int))
  | '+' :: rest =>
    let ds := rest.takeWhile isDigitC
    if ds = [] then none else some (digitsVal ds : Int)
  | _ =>
    let ds := t.takeWhile isDigitC
    if ds = [] then none else some (digitsVal ds : Int)

/-- Model of JS `parseInt(s, 16)` for the 1–4 hex-digit groups matched by the
IPv4-mapped-IPv6 regex (no `0x` prefix can occur there). -/
def jsParseIntHex (cs : List Char) : Option Int :=
  let ds := cs.takeWhile isHexDigitC
  if ds = [] then none else some (hexDigitsVal ds : Int)

/-- Model of JS `Number(s)` restricted to integral literals: the empty (or
all-whitespace) string is `0`, an optionally signed all-digits string is its
value, anything else — including non-integral numerals, which never occur in
well-formed cron fields — is modelled as `NaN` (`none`). -/
def jsNumber (cs : List Char) : Option Int :=
  let t := jsTrim cs
  if t = [] then some 0
  else
    match t with
    | '-' :: rest => if allDigits rest then some (-(digitsVal rest : Int)) else none
    | '+' :: rest => if allDigits rest then some (digitsVal rest : Int) else none
    | _ => if allDigits t then some (digitsVal t : Int) else none

/-- NaN-aware `<=` on JS numbers: any comparison against `NaN` is false. -/
def jsLe : Option Int → Option Int → Bool
  | some a, some b => a ≤ b
  | _, _ => false

/-- NaN-aware `<`. -/
def jsLt : Option Int → Option Int → Bool
  | some a, some b => a < b
  | _, _ => false

/-- NaN-absorbing addition. -/
def jsAdd : Option Int → Option Int → Option Int
  | some a, some b => some (a + b)
  | _, _ => none

/-! ## SafeFetcher: `isPrivateHost` (cronManager.ts lines 255–293) -/

/-- Match of `/^(\d+)\.(\d+)\.(\d+)\.(\d+)$/` followed by
`const [, a, b] = ipv4.map(Number)`: the source destructures only the first
two octets (the private-range conditions never look at the last two).
Returns `(Number(p1), Number(p2))` when the regex matches. -/
def matchIPv4 (cs : List Char) : Option (Nat × Nat) :=
  match splitOnC '.' cs with
  | [p1, p2, p3, p4] =>
    if allDigits p1 && allDigits p2 && allDigits p3 && allDigits p4 then
      some (digitsVal p1, digitsVal p2)
    else none
  | _ => none

/-- The IPv4 conditions of `isPrivateHost` on the first two octets
(`a === 0`, `a === 127`, `a === 10`, `169.254`, `172.16–31`, `192.168`,
`100.64–127`). -/
def privateIPv4Cond (a b : Nat) : Bool :=
  a = 0 || a = 127 || a = 10 || (a = 169 && b = 254) ||
  (a = 172 && 16 ≤ b && b ≤ 31) || (a = 192 && b = 168) ||
  (a = 100 && 64 ≤ b && b ≤ 127)

/-- Model of `hostname.replace(/^\[|\]$/g, '')`: a leading `[` and a trailing
`]` are each removed when present. -/
def stripBrackets (cs : List Char) : List Char :=
  let c1 := if cs.head? = some '[' then cs.tail else cs
  if c1.getLast? = some ']' then c1.dropLast else c1

/-- The template literal `` `${a}.${b}.${c}.${d}` `` for natural numbers
(also the canonical dotted-quad rendering of an IPv4 address). -/
def ipv4Str (a b c d : Nat) : List Char :=
  natReprL a ++ '.' :: natReprL b ++ '.' :: natReprL c ++ '.' :: natReprL d

/-- Match of `/^::ffff:([0-9a-f]{1,4}):([0-9a-f]{1,4})$/i` against `bare`,
returning the two hex group values. -/
def matchMappedHex (bare : List Char) : Option (Nat × Nat) :=
  let lb := toLowerL bare
  if lb.take 7 = "::ffff:".toList then
    match splitOnC ':' (lb.drop 7) with
    | [g1, g2] =>
      if g1 ≠ [] && g1.length ≤ 4 && g1.all isHexDigitC &&
         g2 ≠ [] && g2.length ≤ 4 && g2.all isHexDigitC then
        some (hexDigitsVal g1, hexDigitsVal g2)
      else none
    | _ => none
  else none

/-- Match of `/^::ffff:(\d+\.\d+\.\d+\.\d+)$/i` against `bare`, returning the
captured dotted-quad substring. -/
def matchMappedDot (bare : List Char) : Option (List Char) :=
  let lb := toLowerL bare
  if lb.take 7 = "::ffff:".toList then
    let rest := lb.drop 7
    match splitOnC '.' rest with
    | [p1, p2, p3, p4] =>
      if allDigits p1 && allDigits p2 && allDigits p3 && allDigits p4 then
        some rest
      else none
    | _ => none
  else none

/-- `isPrivateHost` with explicit recursion fuel.  The source recursion (on
the decoded IPv4 form of an IPv4-mapped-IPv6 address) has depth at most 2: the
decoded form is a plain dotted quad, which matches neither mapped regex, so no
reachable call ever hits fuel 0 when started with fuel 2. -/
def isPrivateHostAux : Nat → List Char → Bool
  | 0, _ => false
  | fuel + 1, hostname =>
    if hostname = "localhost".toList then true
    else
      let priv4 : Bool :=
        match matchIPv4 hostname with
        | some (a, b) => privateIPv4Cond a b
        | none => false
      if priv4 then true
      else
        let bare := stripBrackets hostname
        let lb := toLowerL bare
        if bare = "::1".toList || bare = "::".toList ||
           lb.take 2 = "fc".toList || lb.take 2 = "fd".toList ||
           lb.take 4 = "fe80".toList || lb.take 2 = "ff".toList then true
        else
          match matchMappedHex bare with
          | some (hi, lo) =>
            isPrivateHostAux fuel (ipv4Str (hi / 256) (hi % 256) (lo / 256) (lo % 256))
          | none =>
            match matchMappedDot bare with
            | some quad => isPrivateHostAux fuel quad
            | none => false

/-- Model of `CronManager.isPrivateHost` (cronManager.ts lines 255–293). -/
def isPrivateHost (hostname : List Char) : Bool :=
  isPrivateHostAux 2 hostname

/-- The spec's enumerated private/reserved IPv4 ranges (§4.4 item 2):
`0.0.0.0/8`, `127.0.0.0/8`, `10.0.0.0/8`, `169.254.0.0/16`, `172.16.0.0/12`,
`192.168.0.0/16`, `100.64.0.0/10`, expressed as conditions on the first two
octets (each CIDR block above fixes at most the first two).  Written from the
spec's words, to be compared with the source-derived `isPrivateHost`. -/
def specPrivateIPv4Range (a b : Nat) : Bool :=
  a = 0 ||
  a = 127 ||
  a = 10 ||
  (a = 169 && b = 254) ||
  (a = 172 && 16 ≤ b && b ≤ 31) ||
  (a = 192 && b = 168) ||
  (a = 100 && 64 ≤ b && b ≤ 127)

/-! ## CronExpressionEvaluator: `computeNextRun` (cronManager.ts lines 15–69) -/

/-- `v <= 0` on a JS number (`NaN <= 0` is false, so a `NaN` step passes the
`if (s <= 0) return false` guard, exactly as in the source). -/
def jsLeZero : Option Int → Bool
  | some v => v ≤ 0
  | none => false

/-- The `[lo, hi]` pair used by the stride branch:
`range === '*' ? [min, max] : range.split('-').map(Number)` followed by
`hi ?? lo` (an absent second component falls back to `lo`; a `NaN` one does
not). -/
def strideBounds (range : List Char) (mn mx : Nat) : Option Int × Option Int :=
  if range = ['*'] then ((mn : Int), (mx : Int))
  else
    let rp := (splitOnC '-' range).map jsNumber
    let lo := rp.headD none
    let hi := match rp.get? 1 with
      | some h => h
      | none => lo
    (lo, hi)

/-- Fuel that provably bounds the iteration count of the stride loop
`for (let v = lo; v <= hi; v += s)`: when `lo`/`hi` is `NaN` the guard fails
at once; when the step is `NaN` the second iteration starts from `NaN`; when
`s ≥ 1` (the only way past the `s <= 0` guard) there are at most
`hi - lo + 1` iterations. -/
def strideFuel : Option Int → Option Int → Nat
  | some l, some h => (h - l).toNat + 2
  | _, _ => 2

/-- The stride loop body: `for (v = lo; v <= hi; v += s) if (v === value)
return true`. -/
def strideLoop (s : Option Int) (hi : Option Int) (value : Int) :
    Nat → Option Int → Bool
  | 0, _ => false
  | fuel + 1, v =>
    if jsLe v hi then
      if v = some value then true else strideLoop s hi value fuel (jsAdd v s)
    else false

/-- The `for (const segment of field.split(','))` loop of `matches`.  Note the
early `return false` when a stride step parses to `s <= 0`: it aborts the
whole field match, skipping any later segment. -/
def segsMatch (value : Int) (mn mx : Nat) : List (List Char) → Bool
  | [] => false
  | seg :: rest =>
    if seg.contains '/' then
      match splitOnC '/' seg with
      | range :: step :: _ =>
        let s := jsParseIntDec step
        if jsLeZero s then false
        else
          let (lo, hi) := strideBounds range mn mx
          if strideLoop s hi value (strideFuel lo hi) lo then true
          else segsMatch value mn mx rest
      | _ => false
    else if seg.contains '-' then
      let ps := (splitOnC '-' seg).map jsNumber
      let lo := ps.headD none
      let hi := (ps.get? 1).getD none
      if jsLe lo (some value) && jsLe (some value) hi then true
      else segsMatch value mn mx rest
    else if jsParseIntDec seg = some value then true
    else segsMatch value mn mx rest

/-- Model of the inner `matches(value, field, min, max)` helper of
`computeNextRun`. -/
def fieldMatches (value : Int) (field : List Char) (mn mx : Nat) : Bool :=
  if field = ['*'] then true
  else segsMatch value mn mx (splitOnC ',' field)

/-- Days-since-epoch to proleptic-Gregorian `(year, month 1–12, day 1–31)`
(the civil-from-days algorithm; models the UTC accessors of the JS `Date`).
All intermediate values are non-negative for `z ≥ 0`, so `Nat` arithmetic
agrees with the usual integer formulation. -/
def civilFromDays (days : Nat) : Nat × Nat × Nat :=
  let z := days + 719468
  let era := z / 146097
  let doe := z % 146097
  let yoe := (doe - doe / 1460 + doe / 36524 - doe / 146096) / 365
  let y := yoe + era * 400
  let doy := doe - (365 * yoe + yoe / 4 - yoe / 100)
  let mp := (5 * doy + 2) / 153
  let d := doy - (153 * mp + 2) / 5 + 1
  let m := if mp < 10 then mp + 3 else mp - 9
  (if m ≤ 2 then y + 1 else y, m, d)

/-- The five candidate components read off the `Date` in the search loop, for
an absolute UTC minute index `m` (minutes since the Unix epoch):
`getUTCMinutes`, `getUTCHours`, `getUTCDate`, `getUTCMonth() + 1`,
`getUTCDay` (epoch day 0 was a Thursday, hence `+ 4`). -/
def dateParts (m : Nat) : Nat × Nat × Nat × Nat × Nat :=
  let days := m / 1440
  let (_, month, dom) := civilFromDays days
  (m % 60, (m / 60) % 24, dom, month, (days + 4) % 7)

/-- The conjunction of the five `matches` calls of the search loop, on the
token list of the expression. -/
def matchesAllAt (parts : List (List Char)) (m : Nat) : Bool :=
  match parts with
  | [minPart, hourPart, domPart, monthPart, dowPart] =>
    let (mi, ho, dm, mo, dw) := dateParts m
    fieldMatches mi minPart 0 59 &&
    fieldMatches ho hourPart 0 23 &&
    fieldMatches dm domPart 1 31 &&
    fieldMatches mo monthPart 1 12 &&
    fieldMatches dw dowPart 0 6
  | _ => false

/-- Generic bounded minute scan: try `start, start+1, …` while fuel lasts. -/
def scanGen (p : Nat → Bool) : Nat → Nat → Option Nat
  | 0, _ => none
  | fuel + 1, cand => if p cand then some cand else scanGen p fuel (cand + 1)

/-- The horizon of `computeNextRun` in minutes: the source iterates while
`candidate <= now + 60 days`, and the candidates are whole minutes starting at
the first whole minute strictly after `now`, so exactly the 60·24·60 = 86400
minutes `now+1 … now+86400` are examined (for any sub-minute part of `now`:
`candidate ≤ now_ms + 60·86400000` holds for a whole minute `c` iff
`c ≤ nowMin + 86400`). -/
def cronHorizonMinutes : Nat := 60 * 24 * 60

/-- Model of `computeNextRun(expression)` (cronManager.ts lines 15–69), with
the implicit `new Date()` clock passed explicitly as the UTC minute index of
the current time.  Returns the absolute minute index of the next match (the
source returns its ISO rendering), or `none` when the 60-day horizon is
exceeded. -/
def computeNextRun (expression : List Char) (nowMin : Nat) : Option Nat :=
  let parts := jsTrimSplitWs expression
  if parts.length = 5 then
    scanGen (matchesAllAt parts) cronHorizonMinutes (nowMin + 1)
  else none

/-! ## JSON values and the shared data store -/

/-- JSON-serializable values (the `unknown` payloads of `config` fields, HTTP
bodies and DataPoint values).  Numbers are modelled as `Rat`. -/
inductive Json where
  | null
  | bool (b : Bool)
  | num (q : Rat)
  | str (s : List Char)
  | arr (xs : List Json)
  | obj (fields : List (List Char × Json))

/-- Canonical array-index string (JS property access `arr[p]` hits an element
exactly when `p` is the canonical decimal rendering of an index). -/
def canonIndex (p : List Char) : Option Nat :=
  if allDigits p && (p = ['0'] || p.head? ≠ some '0') then some (digitsVal p)
  else none

/-- JS property read `v[key]` on an object-typed value: key lookup on an
object, canonical-index lookup on an array; `none` models `undefined`. -/
def jget (v : Json) (key : List Char) : Option Json :=
  match v with
  | .obj fields => (fields.find? (fun kv => kv.1 = key)).map (fun kv => kv.2)
  | .arr xs =>
    match canonIndex key with
    | some i => xs.get? i
    | none => none
  | _ => none

/-- JS `a ?? b` on property-read results: `undefined` (`none`) and `null`
both fall through to `b`. -/
def jsCoalesce (a b : Option Json) : Option Json :=
  match a with
  | none => b
  | some .null => b
  | some v => some v

/-- `typeof v === 'object' && v !== null` (arrays are objects in JS). -/
def isJsObject : Json → Bool
  | .obj _ => true
  | .arr _ => true
  | _ => false

/-- One row of the per-application append-only data store (`app_data`), with
its creation time as a UTC minute index. -/
structure DataRow where
  appId : Nat
  key : List Char
  value : Json
  createdAt : Int

/-- One row as inserted by an action handler (`createdAt` is filled in by the
database default, so it is not part of the handler's observable output). -/
structure InsRow where
  appId : Nat
  key : List Char
  value : Json

/-- The key pattern `/^[a-zA-Z0-9_]{1,100}$/` (`CRON_KEY_REGEX`). -/
def isKeyCharC (c : Char) : Bool :=
  isDigitC c || ('a' ≤ c && c ≤ 'z') || ('A' ≤ c && c ≤ 'Z') || c = '_'

def cronKeyOk (cs : List Char) : Bool :=
  cs ≠ [] && cs.length ≤ 100 && cs.all isKeyCharC

/-- The action-specific configuration object (`config: Record<string,
unknown>`), modelled with one optional field per key the handlers read.
`none` stands for an absent key and also for a value of the wrong runtime
type wherever the source guards with `typeof`/truthiness before use. -/
structure ActionConfig where
  url : Option (List Char) := none
  dataPath : Option (List Char) := none
  outputKey : Option (List Char) := none
  dataKey : Option (List Char) := none
  operation : Option (List Char) := none
  windowDays : Option Int := none
  text : Option (List Char) := none
  triggerOnKey : Option (List Char) := none

/-! ## SafeFetcher: response processing (cronManager.ts lines 334–405) -/

def MAX_BODY_BYTES : Nat := 1048576

/-- How the response stream terminates after its data chunks. -/
inductive StreamTail where
  | ended
  | errored

/-- The observable HTTPS response the environment supplies once a request is
issued: status code, the raw `content-length` header when present, the body
chunks in arrival order (one `Char` models one byte), and how the stream
ends. -/
structure NetResponse where
  status : Nat
  contentLength : Option (List Char)
  chunks : List (List Char)
  tail : StreamTail

inductive FetchResult where
  | ok (body : List Char)
  | failRedirect
  | failTooLarge
  | failError

/-- The `res.on('data')`/`res.on('end')` accumulation loop: the running byte
count is checked against the cap on every chunk, and the response is
destroyed the moment it exceeds `MAX_BODY_BYTES`. -/
def readChunks (acc : List Char) (total : Nat) :
    List (List Char) → StreamTail → FetchResult
  | [], .ended => .ok acc
  | [], .errored => .failError
  | c :: rest, t =>
    if total + c.length > MAX_BODY_BYTES then .failTooLarge
    else readChunks (acc ++ c) (total + c.length) rest t

/-- The response callback of `https.request` (cronManager.ts lines 360–386):
3xx statuses are rejected without following, an over-cap declared
`Content-Length` is rejected up front (`cl &&` skips the check for an absent
or empty header, and a `NaN` parse compares false), then the body is
streamed under the running cap. -/
def runFetch (r : NetResponse) : FetchResult :=
  if 300 ≤ r.status ∧ r.status < 400 then .failRedirect
  else
    let clOver : Bool :=
      match r.contentLength with
      | some cl => cl ≠ [] && jsLt (some (MAX_BODY_BYTES : Int)) (jsParseIntDec cl)
      | none => false
    if clOver then .failTooLarge
    else readChunks [] 0 r.chunks r.tail

/-! ## fetch_url handler (cronManager.ts lines 295–437) -/

/-- The hostname/protocol pieces of a parsed WHATWG URL that the handler
reads (`port` and `pathname + search` only feed the request options, which
have no further observable effect in this model). -/
structure UrlParts where
  protocol : List Char
  hostname : List Char

def BLOCKED_PATH_KEYS : List (List Char) :=
  ["__proto__".toList, "constructor".toList, "prototype".toList]

/-- `dataPath.replace(/^\$\./, '')`: one leading `$.` is stripped. -/
def stripDollar (cs : List Char) : List Char :=
  match cs with
  | '$' :: '.' :: rest => rest
  | other => other

/-- The dot-path walk over the parsed body (cronManager.ts lines 418–424),
instrumented with the list of keys actually read: a blocked segment sets
`current = undefined` and breaks; a property is read only while `current` is
a non-null object. -/
def pathWalk (cur : Option Json) (reads : List (List Char)) :
    List (List Char) → Option Json × List (List Char)
  | [] => (cur, reads)
  | p :: rest =>
    if BLOCKED_PATH_KEYS.contains p then (none, reads)
    else
      match cur with
      | some c =>
        if isJsObject c then pathWalk (jget c p) (reads ++ [p]) rest
        else pathWalk (some c) reads rest
      | none => pathWalk none reads rest

/-- `value = current ?? parsed` after the walk (both `undefined` and `null`
results fall back to the whole parsed body). -/
def extractValue (parsed : Json) (dataPath : List Char) : Json :=
  let parts := splitOnC '.' (stripDollar dataPath)
  match (pathWalk (some parsed) [] parts).1 with
  | none => parsed
  | some .null => parsed
  | some v => v

/-- What a `fetch_url` run does that the rest of the system can see. -/
structure FetchEffect where
  requested : Bool
  inserts : List InsRow

/-- Model of `CronManager.handleFetchUrl` (cronManager.ts lines 295–437).
`parseUrl` models the WHATWG `new URL` constructor (`none` = it threw),
`jsonParse` models `JSON.parse` (`none` = it threw), `dns` is the
`lookup` answer (`none` = the lookup threw), and `net` is the response
(`none` = connection error or timeout).  The returned effect records whether
an HTTPS request was issued and the rows inserted into the data store. -/
def handleFetchUrl (parseUrl : List Char → Option UrlParts)
    (jsonParse : List Char → Option Json) (jobId : Nat) (appId : Nat)
    (cfg : ActionConfig) (dns : Option (List Char))
    (net : Option NetResponse) : FetchEffect :=
  match cfg.url with
  | none => ⟨false, []⟩
  | some url =>
    if url = [] then ⟨false, []⟩
    else
      match parseUrl url with
      | none => ⟨false, []⟩
      | some parsedUrl =>
        if parsedUrl.protocol ≠ "https:".toList then ⟨false, []⟩
        else if isPrivateHost parsedUrl.hostname then ⟨false, []⟩
        else
          match dns with
          | none => ⟨false, []⟩
          | some resolvedIp =>
            if isPrivateHost resolvedIp then ⟨false, []⟩
            else
              match net with
              | none => ⟨true, []⟩
              | some r =>
                match runFetch r with
                | .ok body =>
                  let value : Json :=
                    match jsonParse body with
                    | none => .str body
                    | some parsed =>
                      match cfg.dataPath with
                      | some dp => if dp = [] then parsed else extractValue parsed dp
                      | none => parsed
                  let rawFetchKey : List Char :=
                    match cfg.outputKey with
                    | some k => if k = [] then "fetch_url_".toList ++ natReprL jobId
                                else k.take 100
                    | none => "fetch_url_".toList ++ natReprL jobId
                  let fetchStorageKey :=
                    if cronKeyOk rawFetchKey then rawFetchKey
                    else "fetch_url_".toList ++ natReprL jobId
                  ⟨true, [⟨appId, fetchStorageKey, value⟩]⟩
                | _ => ⟨true, []⟩

/-! ## aggregate_data handler (cronManager.ts lines 449–525) -/

/-- The per-row numeric extraction of `handleAggregateData` (lines 482–493):
a bare number directly; otherwise, on a non-null object, the first
non-nullish of `obj[dataKey]`, `obj['value']`, `obj['result']`, kept only if
it is a number. -/
def aggExtract (dataKey : List Char) (v : Json) : Option Rat :=
  match v with
  | .num q => some q
  | .null => none
  | .obj _ | .arr _ =>
    let candidate :=
      jsCoalesce (jget v dataKey)
        (jsCoalesce (jget v "value".toList) (jget v "result".toList))
    match candidate with
    | some (.num q) => some q
    | _ => none
  | _ => none

def sumRat (xs : List Rat) : Rat := xs.foldl (· + ·) 0

/-- `((config.dataKey as string) ?? '').slice(0, 100)`. -/
def aggDataKey (cfg : ActionConfig) : List Char :=
  (cfg.dataKey.getD []).take 100

/-- `(config.operation as string) ?? 'avg'`. -/
def aggOperation (cfg : ActionConfig) : List Char :=
  cfg.operation.getD "avg".toList

/-- The clamped window (`Math.min(Math.max(1, windowDays), 365)`, default 7
when the config value is absent or not a finite number). -/
def aggWindowDays (cfg : ActionConfig) : Int :=
  match cfg.windowDays with
  | some w => min (max 1 w) 365
  | none => 7

/-- The rows the Drizzle query returns: same app, same key, created within
the trailing window (the `setDate` cutoff and ISO-string comparison are
modelled as minute arithmetic; ISO-8601 order is timestamp order). -/
def aggWindowRows (now : Int) (store : List DataRow) (appId : Nat)
    (cfg : ActionConfig) : List DataRow :=
  store.filter fun r =>
    r.appId == appId && r.key = aggDataKey cfg &&
    now - aggWindowDays cfg * 1440 ≤ r.createdAt

/-- The numeric samples (`numbers`) extracted from the window. -/
def aggNumbers (now : Int) (store : List DataRow) (appId : Nat)
    (cfg : ActionConfig) : List Rat :=
  (aggWindowRows now store appId cfg).filterMap fun r =>
    aggExtract (aggDataKey cfg) r.value

/-- Model of `CronManager.handleAggregateData` (cronManager.ts lines
449–525).  `now` is the current UTC minute index.  The `orderBy desc` of the
query is dropped: all five statistics are order-independent.  Returns the
inserted rows. -/
def handleAggregateData (now : Int) (store : List DataRow) (appId : Nat)
    (cfg : ActionConfig) : List InsRow :=
  let dataKey := aggDataKey cfg
  let operation := aggOperation cfg
  let rawOutputKey := (cfg.outputKey.getD (dataKey ++ '_' :: operation)).take 100
  let fallbackKey :=
    ((dataKey ++ '_' :: operation).map
      (fun c => if isKeyCharC c then c else '_')).take 100
  let outputKey := if cronKeyOk rawOutputKey then rawOutputKey else fallbackKey
  if dataKey = [] then []
  else
    let numbers := aggNumbers now store appId cfg
    if numbers.isEmpty then []
    else
      let result : Option Rat :=
        if operation = "avg".toList then some (sumRat numbers / numbers.length)
        else if operation = "sum".toList then some (sumRat numbers)
        else if operation = "count".toList then some (numbers.length : Rat)
        else if operation = "max".toList then
          some (numbers.foldl max (numbers.headD 0))
        else if operation = "min".toList then
          some (numbers.foldl min (numbers.headD 0))
        else none
      match result with
      | some q => [⟨appId, outputKey, .num q⟩]
      | none => []

/-! ## JobScheduler: `addJobs` / `scheduleJob` (cronManager.ts lines 76–188) -/

/-- One job definition as produced by the chat collaborator
(`CronJobConfig` in aiService). -/
structure JobDef where
  name : List Char
  schedule : List Char
  humanReadable : List Char
  action : List Char
  config : ActionConfig

/-- One persisted `cron_jobs` row (the columns the scheduler reads). -/
structure JobRow where
  id : Nat
  appId : Nat
  name : List Char
  schedule : List Char
  action : List Char
  config : ActionConfig
  isActive : Bool

/-- The scheduler's observable state: the persisted job rows, the in-memory
trigger map (`this.tasks`, job id ↦ registered cron expression), the number
of `console.warn` calls issued, and the next auto-increment row id.  (The
advisory `nextRun` column update of `scheduleJob` has no reader in this
subsystem and is not tracked.) -/
structure SchedState where
  rows : List JobRow
  tasks : List (Nat × List Char)
  warns : Nat
  nextId : Nat

def MAX_JOBS_PER_APP : Nat := 5

def ALLOWED_ACTIONS : List (List Char) :=
  ["log_entry".toList, "fetch_url".toList, "send_reminder".toList,
   "aggregate_data".toList]

/-- The over-frequency guard on the minute field: `'*'`, or `'*/N'` with
`parseInt(N) < 5` (a `NaN` parse compares false). -/
def overFrequentMinute (minuteField : List Char) : Bool :=
  minuteField = ['*'] ||
  (minuteField.take 2 = "*/".toList &&
    jsLt (jsParseIntDec (minuteField.drop 2)) (some 5))

/-- Model of `CronManager.scheduleJob` (cronManager.ts lines 143–188).
`validate` is node-cron's `validate` (an external dependency, passed as a
parameter).  Registration of the `schedule(...)` task is recorded in the
trigger map; each rejected path logs one warning. -/
def scheduleJob (validate : List Char → Bool) (jobId : Nat)
    (expression : List Char) (st : SchedState) : SchedState :=
  if ¬ validate expression then { st with warns := st.warns + 1 }
  else
    let expressionParts := jsTrimSplitWs expression
    if expressionParts.length ≠ 5 then { st with warns := st.warns + 1 }
    else if overFrequentMinute (expressionParts.headD []) then
      { st with warns := st.warns + 1 }
    else { st with tasks := st.tasks ++ [(jobId, expression)] }

/-- The `for (const job of capped)` loop body of `addJobs` (cronManager.ts
lines 98–140): validation failures warn and `continue`; a surviving
definition is inserted as an active row and passed to `scheduleJob`. -/
def addJobsLoop (validate : List Char → Bool) (appId : Nat) :
    List JobDef → SchedState → SchedState
  | [], st => st
  | d :: rest, st =>
    if ¬ ALLOWED_ACTIONS.contains d.action then
      addJobsLoop validate appId rest { st with warns := st.warns + 1 }
    else if ¬ validate d.schedule then
      addJobsLoop validate appId rest { st with warns := st.warns + 1 }
    else if (jsTrimSplitWs d.schedule).length ≠ 5 then
      addJobsLoop validate appId rest { st with warns := st.warns + 1 }
    else if overFrequentMinute ((jsTrimSplitWs d.schedule).headD []) then
      addJobsLoop validate appId rest { st with warns := st.warns + 1 }
    else
      let row : JobRow :=
        ⟨st.nextId, appId, d.name, d.schedule, d.action, d.config, true⟩
      let st1 : SchedState :=
        { st with rows := st.rows ++ [row], nextId := st.nextId + 1 }
      addJobsLoop validate appId rest (scheduleJob validate row.id d.schedule st1)

/-- Model of `CronManager.addJobs` (cronManager.ts lines 96–141): the input
batch is first capped with `jobs.slice(0, MAX_JOBS_PER_APP)`. -/
def addJobs (validate : List Char → Bool) (appId : Nat) (jobs : List JobDef)
    (st : SchedState) : SchedState :=
  addJobsLoop validate appId (jobs.take MAX_JOBS_PER_APP) st

/-- The per-definition acceptance condition enforced by the `addJobs` loop
(used to characterise its behaviour; the theorems prove the loop equal to a
`take`/`filter` along this predicate). -/
def acceptJob (validate : List Char → Bool) (d : JobDef) : Bool :=
  ALLOWED_ACTIONS.contains d.action && validate d.schedule &&
  (jsTrimSplitWs d.schedule).length = 5 &&
  ¬ overFrequentMinute ((jsTrimSplitWs d.schedule).headD [])

/-- Modelled from the spec: `CronManager.runTriggeredJobs` is called from
`POST /api/app/:hash/data` (routes/app.ts lines 365–372) but its
implementation is not present under `src/`.  Spec §4.2: "an out-of-band
execution path, independent of the cron clock, that immediately executes
every still-active Job for that application whose configuration names
`writtenKey` as its trigger key"; job configurations carry the trigger key in
`triggerOnKey` (documented in the aiService prompt).  The model returns the
jobs the call executes, in row order; it takes no clock and consults no
trigger map, reflecting independence from the cron schedule. -/
def runTriggeredJobs (st : SchedState) (appId : Nat) (writtenKey : List Char) :
    List JobRow :=
  st.rows.filter fun j =>
    j.appId == appId && j.isActive &&
    j.config.triggerOnKey == some writtenKey

/-! ## Cron-expression well-formedness (spec §4.1 grammar, hypothesis side)

The grammar of a valid field per the spec: `*`, a bare integer, `lo-hi`, a
comma-separated list of those (excluding a bare `*` inside a list), or
`base/step` / `*/step` — all within the field's bounds.  Used only as the
hypothesis of the `computeNextRun` claim. -/

def wfAtom (mn mx : Nat) (cs : List Char) : Bool :=
  allDigits cs && mn ≤ digitsVal cs && digitsVal cs ≤ mx

def wfRange (mn mx : Nat) (cs : List Char) : Bool :=
  match splitOnC '-' cs with
  | [a, b] => wfAtom mn mx a && wfAtom mn mx b && digitsVal a ≤ digitsVal b
  | _ => false

def wfStrideBase (mn mx : Nat) (cs : List Char) : Bool :=
  cs = ['*'] || wfAtom mn mx cs || wfRange mn mx cs

def wfSeg (mn mx : Nat) (cs : List Char) : Bool :=
  match splitOnC '/' cs with
  | [a] => wfAtom mn mx a || wfRange mn mx a
  | [a, s] => wfStrideBase mn mx a && allDigits s && 1 ≤ digitsVal s
  | _ => false

def wfField (mn mx : Nat) (cs : List Char) : Bool :=
  cs = ['*'] || (splitOnC ',' cs).all (wfSeg mn mx)

/-- A syntactically valid 5-field cron expression per the spec grammar. -/
def wfCronExpr (expression : List Char) : Bool :=
  match jsTrimSplitWs expression with
  | [mi, ho, dm, mo, dw] =>
    wfField 0 59 mi && wfField 0 23 ho && wfField 1 31 dm &&
    wfField 1 12 mo && wfField 0 6 dw
  | _ => false

/-! ## Helper lemmas: the character-list library -/

theorem splitOnC_of_not_mem {sep : Char} {xs : List Char} (h : sep ∉ xs) :
    splitOnC sep xs = [xs] := by
  induction xs with
  | nil => rfl
  | cons c rest ih =>
    have hc : c ≠ sep := fun hc => h (hc ▸ List.mem_cons_self c rest)
    have hr : sep ∉ rest := fun hr => h (List.mem_cons_of_mem c hr)
    simp [splitOnC, hc, ih hr]

theorem splitOnC_append_sep {sep : Char} {xs ys : List Char} (h : sep ∉ xs) :
    splitOnC sep (xs ++ sep :: ys) = xs :: splitOnC sep ys := by
  induction xs with
  | nil => simp [splitOnC]
  | cons c rest ih =>
    have hc : c ≠ sep := fun hc => h (hc ▸ List.mem_cons_self c rest)
    have hr : sep ∉ rest := fun hr => h (List.mem_cons_of_mem c hr)
    have heq := ih hr
    simp only [List.cons_append, splitOnC, if_neg hc]
    rw [show rest.append (sep :: ys) = rest ++ sep :: ys from rfl, heq]

theorem digitsVal_append_digit (xs : List Char) (c : Char) :
    digitsVal (xs ++ [c]) = 10 * digitsVal xs + digitValC c := by
  simp [digitsVal, List.foldl_append]

theorem digitChar_isDigit {n : Nat} : isDigitC (digitChar n) = true := by
  unfold digitChar
  split <;> decide

theorem digitChar_val {n : Nat} (h : n < 10) : digitValC (digitChar n) = n := by
  interval_cases n <;> decide

theorem lt_ten_pow_succ (n : Nat) : n < 10 ^ (n + 1) := by
  induction n with
  | zero => decide
  | succ k ih =>
    calc k + 1 ≤ 10 ^ (k + 1) := ih
    _ < 10 ^ (k + 2) := by
      have : 0 < 10 ^ (k + 1) := Nat.pos_pow_of_pos _ (by decide)
      calc 10 ^ (k + 1) < 10 ^ (k + 1) * 10 := by omega
      _ = 10 ^ (k + 2) := by ring

theorem natReprAux_spec :
    ∀ fuel n, n < 10 ^ (fuel + 1) →
      digitsVal (natReprAux (fuel + 1) n) = n ∧
      natReprAux (fuel + 1) n ≠ [] ∧
      ∀ c ∈ natReprAux (fuel + 1) n, isDigitC c := by
  intro fuel
  induction fuel with
  | zero =>
    intro n hn
    have h10 : n < 10 := by simpa using hn
    refine ⟨?_, by simp [natReprAux, h10], ?_⟩
    · simp [natReprAux, h10, digitsVal, digitChar_val h10]
    · intro c hc
      simp [natReprAux, h10] at hc
      simp [hc, digitChar_isDigit]
  | succ k ih =>
    intro n hn
    by_cases h10 : n < 10
    · refine ⟨?_, by simp [natReprAux, h10], ?_⟩
      · simp [natReprAux, h10, digitsVal, digitChar_val h10]
      · intro c hc
        simp [natReprAux, h10] at hc
        simp [hc, digitChar_isDigit]
    · have hdiv : n / 10 < 10 ^ (k + 1) := by
        rw [Nat.div_lt_iff_lt_mul (by decide : 0 < 10)]
        calc n < 10 ^ (k + 2) := hn
        _ = 10 ^ (k + 1) * 10 := by ring
      obtain ⟨hval, hne, hdig⟩ := ih (n / 10) hdiv
      have hmod : n % 10 < 10 := Nat.mod_lt _ (by decide)
      refine ⟨?_, ?_, ?_⟩
      · rw [show natReprAux (k + 1 + 1) n =
            natReprAux (k + 1) (n / 10) ++ [digitChar (n % 10)] by
              simp [natReprAux, h10]]
        rw [digitsVal_append_digit, hval, digitChar_val hmod]
        omega
      · simp [natReprAux, h10]
      · intro c hc
        simp only [natReprAux, if_neg h10, List.mem_append,
          List.mem_singleton] at hc
        rcases hc with hc | hc
        · exact hdig c hc
        · simp [hc, digitChar_isDigit]

theorem natReprL_val (n : Nat) : digitsVal (natReprL n) = n :=
  (natReprAux_spec n n (lt_ten_pow_succ n)).1

theorem natReprL_ne_nil (n : Nat) : natReprL n ≠ [] :=
  (natReprAux_spec n n (lt_ten_pow_succ n)).2.1

theorem natReprL_digits (n : Nat) : ∀ c ∈ natReprL n, isDigitC c :=
  (natReprAux_spec n n (lt_ten_pow_succ n)).2.2

theorem natReprL_allDigits (n : Nat) : allDigits (natReprL n) = true := by
  have h1 := natReprL_ne_nil n
  have h2 := natReprL_digits n
  simp [allDigits, h1]
  intro c hc
  exact h2 c hc

theorem not_mem_natReprL_of_not_digit {ch : Char} (h : isDigitC ch = false)
    (n : Nat) : ch ∉ natReprL n := by
  intro hm
  have := natReprL_digits n ch hm
  rw [h] at this
  exact Bool.false_ne_true this

theorem splitOnC_ipv4Str (a b c d : Nat) :
    splitOnC '.' (ipv4Str a b c d) =
      [natReprL a, natReprL b, natReprL c, natReprL d] := by
  have hdot : isDigitC '.' = false := by decide
  unfold ipv4Str
  simp only [List.append_assoc, List.cons_append]
  rw [splitOnC_append_sep (not_mem_natReprL_of_not_digit hdot a),
    splitOnC_append_sep (not_mem_natReprL_of_not_digit hdot b),
    splitOnC_append_sep (not_mem_natReprL_of_not_digit hdot c),
    splitOnC_of_not_mem (not_mem_natReprL_of_not_digit hdot d)]

theorem matchIPv4_ipv4Str (a b c d : Nat) :
    matchIPv4 (ipv4Str a b c d) = some (a, b) := by
  unfold matchIPv4
  rw [splitOnC_ipv4Str]
  simp [natReprL_allDigits, natReprL_val]

theorem privateIPv4Cond_eq_spec : privateIPv4Cond = specPrivateIPv4Range := rfl

theorem isPrivateHostAux_dotted {a b c d : Nat} (fuel : Nat)
    (h : specPrivateIPv4Range a b = true) :
    isPrivateHostAux (fuel + 1) (ipv4Str a b c d) = true := by
  have hcond : privateIPv4Cond a b = true := by
    rw [privateIPv4Cond_eq_spec]; exact h
  by_cases hloc : ipv4Str a b c d = "localhost".toList
  · simp [isPrivateHostAux, hloc]
  · simp [isPrivateHostAux, hloc, matchIPv4_ipv4Str, hcond]

/-- Every character of a dotted quad is a digit or the dot. -/
theorem mem_ipv4Str {ch : Char} {a b c d : Nat}
    (h : ch ∈ ipv4Str a b c d) : ch = '.' ∨ isDigitC ch = true := by
  unfold ipv4Str at h
  simp only [List.mem_append, List.mem_cons] at h
  have ha := natReprL_digits a ch
  have hb := natReprL_digits b ch
  have hc := natReprL_digits c ch
  have hd := natReprL_digits d ch
  tauto

theorem toLowerC_of_digit {c : Char} (h : isDigitC c = true) :
    toLowerC c = c := by
  simp only [isDigitC, Bool.and_eq_true, decide_eq_true_eq] at h
  unfold toLowerC
  rw [if_neg]
  rintro ⟨hA, _⟩
  exact absurd (le_trans hA h.2) (by decide)

theorem toLowerL_eq_self {cs : List Char}
    (h : ∀ c ∈ cs, c = '.' ∨ isDigitC c = true) : toLowerL cs = cs := by
  induction cs with
  | nil => rfl
  | cons c rest ih =>
    have hc := h c (List.mem_cons_self c rest)
    have hcl : toLowerC c = c := by
      rcases hc with h1 | h1
      · subst h1; decide
      · exact toLowerC_of_digit h1
    have ihr := ih fun x hx => h x (List.mem_cons_of_mem c hx)
    simp only [toLowerL, List.map_cons, hcl]
    simpa [toLowerL] using ihr

theorem toLowerL_ipv4Str (a b c d : Nat) :
    toLowerL (ipv4Str a b c d) = ipv4Str a b c d :=
  toLowerL_eq_self fun _ h => mem_ipv4Str h

theorem allDigits_false_of_mem {ch : Char} {cs : List Char} (hm : ch ∈ cs)
    (hd : isDigitC ch = false) : allDigits cs = false := by
  cases hval : allDigits cs with
  | false => rfl
  | true =>
    exfalso
    simp only [allDigits, Bool.and_eq_true, List.all_eq_true] at hval
    have h2 := hval.2 ch hm
    rw [hd] at h2
    exact Bool.false_ne_true h2

theorem colon_not_mem_ipv4Str (a b c d : Nat) : ':' ∉ ipv4Str a b c d := by
  intro hm
  rcases mem_ipv4Str hm with h | h
  · exact absurd h (by decide)
  · exact absurd h (by decide)

theorem splitOnC_dot_mapped (a b c d : Nat) :
    splitOnC '.' ("::ffff:".toList ++ ipv4Str a b c d) =
      ("::ffff:".toList ++ natReprL a) ::
        [natReprL b, natReprL c, natReprL d] := by
  have hdot : isDigitC '.' = false := by decide
  unfold ipv4Str
  simp only [List.append_assoc, List.cons_append]
  rw [← List.append_assoc "::ffff:".toList (natReprL a)]
  rw [splitOnC_append_sep (by
    simp only [List.mem_append, not_or]
    exact ⟨by decide, not_mem_natReprL_of_not_digit hdot a⟩)]
  rw [splitOnC_append_sep (not_mem_natReprL_of_not_digit hdot b),
    splitOnC_append_sep (not_mem_natReprL_of_not_digit hdot c),
    splitOnC_of_not_mem (not_mem_natReprL_of_not_digit hdot d)]

theorem getLast?_append_right {l l' : List Char} {ch : Char}
    (h : l'.getLast? = some ch) : (l ++ l').getLast? = some ch := by
  rw [List.getLast?_append, h]; rfl

theorem getLast?_cons_right {xs : List Char} {y ch : Char}
    (h : xs.getLast? = some ch) : (y :: xs).getLast? = some ch := by
  rw [show y :: xs = [y] ++ xs from rfl]
  exact getLast?_append_right h

theorem getLast?_ipv4Str (a b c d : Nat) :
    ∃ ch, (ipv4Str a b c d).getLast? = some ch ∧ isDigitC ch = true := by
  obtain ⟨ch, hch⟩ : ∃ ch, (natReprL d).getLast? = some ch := by
    cases hD : (natReprL d).getLast? with
    | none => exact absurd (List.getLast?_eq_none_iff.mp hD) (natReprL_ne_nil d)
    | some ch => exact ⟨ch, rfl⟩
  have hmem : ch ∈ natReprL d := List.mem_of_mem_getLast? (by simp [hch])
  refine ⟨ch, ?_, natReprL_digits d ch hmem⟩
  unfold ipv4Str
  exact getLast?_append_right (getLast?_cons_right hch)

theorem isPrivateHost_mapped_dotted {a b c d : Nat}
    (h : specPrivateIPv4Range a b = true) :
    isPrivateHost ("::ffff:".toList ++ ipv4Str a b c d) = true := by
  have hq := splitOnC_ipv4Str a b c d
  by_cases hloc :
      "::ffff:".toList ++ ipv4Str a b c d = "localhost".toList
  · unfold isPrivateHost
    rw [hloc]
    decide
  · have hm4 : matchIPv4 ("::ffff:".toList ++ ipv4Str a b c d) = none := by
      unfold matchIPv4
      rw [splitOnC_dot_mapped]
      have hfa : allDigits ("::ffff:".toList ++ natReprL a) = false :=
        allDigits_false_of_mem
          (List.mem_append_left _ (by decide : ':' ∈ "::ffff:".toList))
          (by decide)
      simp only []
      simp [hfa]
      intro h1 _ _
      exfalso
      have h1' : allDigits ("::ffff:".toList ++ natReprL a) = true := h1
      rw [hfa] at h1'
      exact Bool.false_ne_true h1'
    have hstrip :
        stripBrackets ("::ffff:".toList ++ ipv4Str a b c d) =
          "::ffff:".toList ++ ipv4Str a b c d := by
      obtain ⟨ch, hch, hchd⟩ := getLast?_ipv4Str a b c d
      have hh : ("::ffff:".toList ++ ipv4Str a b c d).head? = some ':' := rfl
      have hl : ("::ffff:".toList ++ ipv4Str a b c d).getLast? = some ch := by
        rw [List.getLast?_append, hch]; rfl
      have hne : ch ≠ ']' := by
        intro he; rw [he] at hchd; exact absurd hchd (by decide)
      unfold stripBrackets
      simp only []
      rw [if_neg (show
        ¬ ("::ffff:".toList ++ ipv4Str a b c d).head? = some '[' by
          rw [hh]; simp)]
      rw [if_neg (show
        ¬ ("::ffff:".toList ++ ipv4Str a b c d).getLast? = some ']' by
          rw [hl]; simp [hne])]
    have hlow :
        toLowerL ("::ffff:".toList ++ ipv4Str a b c d) =
          "::ffff:".toList ++ ipv4Str a b c d := by
      unfold toLowerL
      rw [List.map_append]
      rw [show List.map toLowerC "::ffff:".toList = "::ffff:".toList by decide]
      rw [show List.map toLowerC (ipv4Str a b c d) = ipv4Str a b c d from
        toLowerL_ipv4Str a b c d]
    have hsplitq : splitOnC ':' (ipv4Str a b c d) = [ipv4Str a b c d] :=
      splitOnC_of_not_mem (colon_not_mem_ipv4Str a b c d)
    have htake :
        ("::ffff:".toList ++ ipv4Str a b c d).take 7 = "::ffff:".toList := by
      rw [show (7 : Nat) = ("::ffff:".toList).length from rfl, List.take_left]
    have hdrop :
        ("::ffff:".toList ++ ipv4Str a b c d).drop 7 = ipv4Str a b c d := by
      rw [show (7 : Nat) = ("::ffff:".toList).length from rfl, List.drop_left]
    have hhex : matchMappedHex ("::ffff:".toList ++ ipv4Str a b c d) = none := by
      unfold matchMappedHex
      simp only [hlow]
      rw [hdrop, hsplitq, htake]
      simp
    have hdotm :
        matchMappedDot ("::ffff:".toList ++ ipv4Str a b c d) =
          some (ipv4Str a b c d) := by
      unfold matchMappedDot
      simp only [hlow]
      rw [hdrop, hq, htake]
      simp [natReprL_allDigits]
    have hfull2 :
        "::ffff:".toList ++ ipv4Str a b c d =
          ':' :: ':' :: 'f' :: 'f' :: 'f' :: 'f' :: ':' :: ipv4Str a b c d :=
      rfl
    have hinner : isPrivateHostAux 1 (ipv4Str a b c d) = true :=
      isPrivateHostAux_dotted 0 h
    have hb1 : "::ffff:".toList ++ ipv4Str a b c d ≠ "::1".toList := by
      rw [hfull2]; simp
    have hb2 : "::ffff:".toList ++ ipv4Str a b c d ≠ "::".toList := by
      rw [hfull2]; simp
    have htk2 : ("::ffff:".toList ++ ipv4Str a b c d).take 2 = [':', ':'] :=
      rfl
    have htk4 :
        ("::ffff:".toList ++ ipv4Str a b c d).take 4 =
          [':', ':', 'f', 'f'] := rfl
    have hm4' :
        matchIPv4 (':' :: ':' :: 'f' :: 'f' :: 'f' :: 'f' :: ':' ::
          ipv4Str a b c d) = none := hm4
    have hstrip' :
        stripBrackets (':' :: ':' :: 'f' :: 'f' :: 'f' :: 'f' :: ':' ::
          ipv4Str a b c d) =
        ':' :: ':' :: 'f' :: 'f' :: 'f' :: 'f' :: ':' :: ipv4Str a b c d :=
      hstrip
    have hlow' :
        toLowerL (':' :: ':' :: 'f' :: 'f' :: 'f' :: 'f' :: ':' ::
          ipv4Str a b c d) =
        ':' :: ':' :: 'f' :: 'f' :: 'f' :: 'f' :: ':' :: ipv4Str a b c d :=
      hlow
    have hhex' :
        matchMappedHex (':' :: ':' :: 'f' :: 'f' :: 'f' :: 'f' :: ':' ::
          ipv4Str a b c d) = none := hhex
    have hdotm' :
        matchMappedDot (':' :: ':' :: 'f' :: 'f' :: 'f' :: 'f' :: ':' ::
          ipv4Str a b c d) = some (ipv4Str a b c d) := hdotm
    have hb1' :
        (':' :: ':' :: 'f' :: 'f' :: 'f' :: 'f' :: ':' :: ipv4Str a b c d) ≠
          [':', ':', '1'] := hb1
    have hb2' :
        (':' :: ':' :: 'f' :: 'f' :: 'f' :: 'f' :: ':' :: ipv4Str a b c d) ≠
          [':', ':'] := hb2
    have htk2' :
        List.take 2 (':' :: ':' :: 'f' :: 'f' :: 'f' :: 'f' :: ':' ::
          ipv4Str a b c d) = [':', ':'] := rfl
    have htk4' :
        List.take 4 (':' :: ':' :: 'f' :: 'f' :: 'f' :: 'f' :: ':' ::
          ipv4Str a b c d) = [':', ':', 'f', 'f'] := rfl
    show isPrivateHostAux 2 ("::ffff:".toList ++ ipv4Str a b c d) = true
    rw [show (2 : Nat) = 1 + 1 from rfl]
    unfold isPrivateHostAux
    rw [if_neg hloc]
    simp [hm4', hstrip', hlow', htk2', htk4', hb1', hb2', hhex', hdotm',
      hinner]

theorem handleFetchUrl_private_ip {parseUrl : List Char → Option UrlParts}
    {jsonParse : List Char → Option Json} {jobId appId : Nat}
    {cfg : ActionConfig} {net : Option NetResponse} {ip : List Char}
    (hpriv : isPrivateHost ip = true) :
    handleFetchUrl parseUrl jsonParse jobId appId cfg (some ip) net =
      ⟨false, []⟩ := by
  unfold handleFetchUrl
  cases hurl : cfg.url with
  | none => rfl
  | some u =>
    by_cases hu : u = []
    · simp [hu]
    · cases hpu : parseUrl u with
      | none => simp [hu, hpu]
      | some pu =>
        by_cases hproto : pu.protocol = ['h', 't', 't', 'p', 's', ':']
        · by_cases hhost : isPrivateHost pu.hostname
          · simp [hu, hpu, hproto, hhost]
          · simp [hu, hpu, hproto, hhost, hpriv]
        · simp [hu, hpu, hproto]

/-- The head group of a dot-split that starts with a non-digit character can
never satisfy the IPv4 regex. -/
theorem allDigits_splitOnC_head_false {c : Char} {cs : List Char}
    (hc : isDigitC c = false) :
    allDigits ((splitOnC '.' (c :: cs)).headD []) = false := by
  unfold splitOnC
  by_cases h : c = '.'
  · rw [if_pos h]
    simp [allDigits]
  · rw [if_neg h]
    cases hrec : splitOnC '.' cs with
    | nil => simp [allDigits, hc]
    | cons g gs =>
      simp only [List.headD_cons]
      exact allDigits_false_of_mem (List.mem_cons_self c g) hc

theorem matchIPv4_none_of_first {hs : List Char}
    (h : allDigits ((splitOnC '.' hs).headD []) = false) :
    matchIPv4 hs = none := by
  unfold matchIPv4
  rcases hsp : splitOnC '.' hs with _ | ⟨p1, ps⟩
  · rfl
  · rw [hsp] at h
    simp only [List.headD_cons] at h
    rcases ps with _ | ⟨p2, _ | ⟨p3, _ | ⟨p4, _ | _⟩⟩⟩ <;> simp [h]

/-- Bracket-stripping and lowercasing keep the first two characters of a
host string of length at least three whose head is not `[`. -/
theorem toLower_stripBrackets_take2 {c0 c1 r : Char} {rs : List Char}
    (h0 : c0 ≠ '[') :
    (toLowerL (stripBrackets (c0 :: c1 :: r :: rs))).take 2 =
      [toLowerC c0, toLowerC c1] := by
  simp only [stripBrackets, List.head?_cons, Option.some.injEq]
  rw [if_neg h0]
  split <;> rfl

/-- Same, keeping the first four characters of a host string of length at
least five. -/
theorem toLower_stripBrackets_take4 {c0 c1 c2 c3 r : Char} {rs : List Char}
    (h0 : c0 ≠ '[') :
    (toLowerL (stripBrackets (c0 :: c1 :: c2 :: c3 :: r :: rs))).take 4 =
      [toLowerC c0, toLowerC c1, toLowerC c2, toLowerC c3] := by
  simp only [stripBrackets, List.head?_cons, Option.some.injEq]
  rw [if_neg h0]
  split <;> rfl

/-- The guard accepts any hostname that reaches the IPv6 prefix checks with
one of the four checked prefixes. -/
theorem isPrivateHost_prefix_true {hs : List Char}
    (hloc : hs ≠ "localhost".toList)
    (hm : matchIPv4 hs = none)
    (hp : (toLowerL (stripBrackets hs)).take 2 = ['f', 'c'] ∨
      (toLowerL (stripBrackets hs)).take 2 = ['f', 'd'] ∨
      (toLowerL (stripBrackets hs)).take 4 = ['f', 'e', '8', '0'] ∨
      (toLowerL (stripBrackets hs)).take 2 = ['f', 'f']) :
    isPrivateHost hs = true := by
  show isPrivateHostAux 2 hs = true
  rw [show (2 : Nat) = 1 + 1 from rfl]
  unfold isPrivateHostAux
  rw [if_neg hloc]
  rcases hp with h | h | h | h <;> simp [hm, h]

/-- Every hostname whose text begins `fc` is accepted: this covers the
canonical (lowercase, no leading zero in a group of value ≥ 0x1000) text of
every unique-local address with first group 0xfc00–0xfcff, for any remaining
text. -/
theorem isPrivateHost_fc_prefix (rest : List Char) :
    isPrivateHost ("fc".toList ++ rest) = true := by
  rcases rest with _ | ⟨r, rs⟩
  · decide
  · apply isPrivateHost_prefix_true
    · simp
    · exact matchIPv4_none_of_first (allDigits_splitOnC_head_false (by decide))
    · left
      simpa using @toLower_stripBrackets_take2 'f' 'c' r rs (by decide)

/-- Every hostname whose text begins `fd` is accepted (unique-local,
first group 0xfd00–0xfdff; with `fc` this covers all of fc00::/7). -/
theorem isPrivateHost_fd_prefix (rest : List Char) :
    isPrivateHost ("fd".toList ++ rest) = true := by
  rcases rest with _ | ⟨r, rs⟩
  · decide
  · apply isPrivateHost_prefix_true
    · simp
    · exact matchIPv4_none_of_first (allDigits_splitOnC_head_false (by decide))
    · right; left
      simpa using @toLower_stripBrackets_take2 'f' 'd' r rs (by decide)

/-- Every hostname whose text begins `fe80` is accepted: the canonical text
of every RFC-4291 link-local address (first group exactly 0xfe80).  The rest
of fe80::/10 — first groups 0xfe81–0xfebf — is NOT caught (see the
counterexample). -/
theorem isPrivateHost_fe80_prefix (rest : List Char) :
    isPrivateHost ("fe80".toList ++ rest) = true := by
  rcases rest with _ | ⟨r, rs⟩
  · decide
  · apply isPrivateHost_prefix_true
    · simp
    · exact matchIPv4_none_of_first (allDigits_splitOnC_head_false (by decide))
    · right; right; left
      simpa using @toLower_stripBrackets_take4 'f' 'e' '8' '0' r rs (by decide)

/-- Every hostname whose text begins `ff` is accepted: the canonical text of
every multicast address (ff00::/8, first group 0xff00–0xffff). -/
theorem isPrivateHost_ff_prefix (rest : List Char) :
    isPrivateHost ("ff".toList ++ rest) = true := by
  rcases rest with _ | ⟨r, rs⟩
  · decide
  · apply isPrivateHost_prefix_true
    · simp
    · exact matchIPv4_none_of_first (allDigits_splitOnC_head_false (by decide))
    · right; right; right
      simpa using @toLower_stripBrackets_take2 'f' 'f' r rs (by decide)

/-- C1 counterexample: the claim as stated is false on the code.  `fe81::1`
lies in the spec's link-local block fe80::/10 — the first 10 bits of the
leading group agree with those of 0xfe80 (first conjunct) — but the guard
checks only the textual prefix `fe80` (cronManager.ts line 274), so
`isPrivateHost` rejects nothing: with `fe81::1` as the fetch-time-resolved
address the handler issues the HTTPS request and, on a 200 response, writes
a DataPoint. -/
theorem fetchUrl_fe81_in_linklocal_block_not_rejected :
    (0xfe81 / 2 ^ 6 : Nat) = 0xfe80 / 2 ^ 6 ∧
    isPrivateHost "fe81::1".toList = false ∧
    (handleFetchUrl (fun _ => some ⟨"https:".toList, "h.example".toList⟩)
      (fun _ => some (Json.num 1)) 1 2
      { url := some "https://h.example/".toList,
        outputKey := some "k".toList }
      (some "fe81::1".toList)
      (some ⟨200, none, [['1']], .ended⟩)).requested = true ∧
    (handleFetchUrl (fun _ => some ⟨"https:".toList, "h.example".toList⟩)
      (fun _ => some (Json.num 1)) 1 2
      { url := some "https://h.example/".toList,
        outputKey := some "k".toList }
      (some "fe81::1".toList)
      (some ⟨200, none, [['1']], .ended⟩)).inserts.length = 1 := by
  exact ⟨by decide, by decide, by decide, by decide⟩

/-- C1 (amended): for every `fetch_url` execution, a DNS resolution
answering with an address in one of the spec's private/loopback/CGNAT/
multicast ranges — the enumerated IPv4 CIDR blocks (in dotted or IPv4-mapped
form, decoded and re-checked), IPv6 `::1`, unique-local fc00::/7, multicast
ff00::/8 — or with an IPv6 link-local address in canonical form (leading
group exactly fe80, i.e. every RFC-4291 link-local address; the code's
textual `fe80` check does not cover the rest of fe80::/10) makes the handler
return before the request is issued, inserting no DataPoint.  Part 1 is the
control-flow guarantee for every address the guard classifies as private;
part 2 covers the spec's IPv4 ranges for arbitrary octets; part 3 their
IPv4-mapped-IPv6 decoding; parts 4–7 cover the IPv6 ranges universally over
the canonical rendering (every address of fc00::/7 renders with text prefix
`fc` or `fd`, of ff00::/8 with `ff`, and every canonical link-local with
`fe80`, the remaining text being arbitrary); part 8 is the loopback
address. -/
theorem fetchUrl_private_resolution_rejected_amended :
    (∀ (parseUrl : List Char → Option UrlParts)
        (jsonParse : List Char → Option Json) (jobId appId : Nat)
        (cfg : ActionConfig) (net : Option NetResponse) (ip : List Char),
      isPrivateHost ip = true →
        (handleFetchUrl parseUrl jsonParse jobId appId cfg (some ip)
            net).requested = false ∧
        (handleFetchUrl parseUrl jsonParse jobId appId cfg (some ip)
            net).inserts = []) ∧
    (∀ a b c d : Nat, specPrivateIPv4Range a b = true →
      isPrivateHost (ipv4Str a b c d) = true) ∧
    (∀ a b c d : Nat, specPrivateIPv4Range a b = true →
      isPrivateHost ("::ffff:".toList ++ ipv4Str a b c d) = true) ∧
    (∀ rest : List Char, isPrivateHost ("fc".toList ++ rest) = true) ∧
    (∀ rest : List Char, isPrivateHost ("fd".toList ++ rest) = true) ∧
    (∀ rest : List Char, isPrivateHost ("fe80".toList ++ rest) = true) ∧
    (∀ rest : List Char, isPrivateHost ("ff".toList ++ rest) = true) ∧
    isPrivateHost "::1".toList = true := by
  refine ⟨?_, ?_, ?_, isPrivateHost_fc_prefix, isPrivateHost_fd_prefix,
    isPrivateHost_fe80_prefix, isPrivateHost_ff_prefix, by decide⟩
  · intro parseUrl jsonParse jobId appId cfg net ip hpriv
    rw [handleFetchUrl_private_ip hpriv]
    exact ⟨rfl, rfl⟩
  · intro a b c d hspec
    exact isPrivateHostAux_dotted 1 hspec
  · intro a b c d hspec
    exact isPrivateHost_mapped_dotted hspec

/-- Witness for the amended C1 at concrete inputs: the resolved address
`10.0.0.5` is rejected with no request and no row; the guard accepts
`192.168.1.7`, `::ffff:127.0.0.1`, the unique-local `fd12:3456:789a::1`
(through the universal `fd`-prefix part) and the link-local `fe80::1`
(through the universal `fe80`-prefix part). -/
theorem fetchUrl_private_resolution_rejected_amended_witness :
    isPrivateHost "10.0.0.5".toList = true ∧
    (handleFetchUrl
        (fun _ => some ⟨"https:".toList, "internal.example".toList⟩)
        (fun _ => none) 1 42
        { url := some "https://internal.example/api".toList }
        (some "10.0.0.5".toList) none).requested = false ∧
    (handleFetchUrl
        (fun _ => some ⟨"https:".toList, "internal.example".toList⟩)
        (fun _ => none) 1 42
        { url := some "https://internal.example/api".toList }
        (some "10.0.0.5".toList) none).inserts = [] ∧
    specPrivateIPv4Range 192 168 = true ∧
    isPrivateHost (ipv4Str 192 168 1 7) = true ∧
    isPrivateHost ("::ffff:".toList ++ ipv4Str 127 0 0 1) = true ∧
    isPrivateHost "fd12:3456:789a::1".toList = true ∧
    isPrivateHost "fe80::1".toList = true := by
  refine ⟨by decide, ?_, ?_, by decide, ?_, ?_, ?_, ?_⟩
  · exact (fetchUrl_private_resolution_rejected_amended.1 _ _ 1 42 _ none
      "10.0.0.5".toList (by decide)).1
  · exact (fetchUrl_private_resolution_rejected_amended.1 _ _ 1 42 _ none
      "10.0.0.5".toList (by decide)).2
  · exact fetchUrl_private_resolution_rejected_amended.2.1 192 168 1 7
      (by decide)
  · exact fetchUrl_private_resolution_rejected_amended.2.2.1 127 0 0 1
      (by decide)
  · exact fetchUrl_private_resolution_rejected_amended.2.2.2.2.1
      "12:3456:789a::1".toList
  · exact fetchUrl_private_resolution_rejected_amended.2.2.2.2.2.1
      "::1".toList


/-! ## C4: the minute-stepping next-run search -/

theorem scanGen_some {p : Nat → Bool} :
    ∀ fuel start m, scanGen p fuel start = some m →
      start ≤ m ∧ m < start + fuel ∧ p m = true ∧
      ∀ k, start ≤ k → k < m → p k = false := by
  intro fuel
  induction fuel with
  | zero =>
    intro start m h
    exact absurd h (by simp [scanGen])
  | succ f ih =>
    intro start m h
    unfold scanGen at h
    by_cases hp : p start
    · rw [if_pos hp] at h
      obtain rfl : start = m := by injection h
      exact ⟨le_refl _, by omega, hp, fun k h1 h2 => by omega⟩
    · rw [if_neg hp] at h
      obtain ⟨h1, h2, h3, h4⟩ := ih (start + 1) m h
      refine ⟨by omega, by omega, h3, fun k hk1 hk2 => ?_⟩
      by_cases hks : k = start
      · subst hks
        exact Bool.not_eq_true (p k) |>.mp hp |>.symm ▸ (by
          cases hv : p k
          · rfl
          · exact absurd hv hp)
      · exact h4 k (by omega) hk2

theorem scanGen_none {p : Nat → Bool} :
    ∀ fuel start, scanGen p fuel start = none →
      ∀ k, start ≤ k → k < start + fuel → p k = false := by
  intro fuel
  induction fuel with
  | zero => intro start _ k h1 h2; omega
  | succ f ih =>
    intro start h k h1 h2
    unfold scanGen at h
    by_cases hp : p start
    · rw [if_pos hp] at h; exact absurd h (by simp)
    · rw [if_neg hp] at h
      by_cases hks : k = start
      · subst hks
        cases hv : p k
        · rfl
        · exact absurd hv hp
      · exact ih (start + 1) h k (by omega) (by omega)

/-- C4: for a grammatically valid 5-field expression whose minute field
respects the frequency floor, `computeNextRun` (with the clock passed as the
current UTC minute `t`) starts at the whole minute strictly after `t`,
returns the earliest minute within the 60-day horizon on which all five field
predicates hold conjunctively — no minute strictly between `t` and the result
matches — and returns `none` exactly when no minute in the horizon
matches. -/
theorem computeNextRun_earliest_match (e : List Char) (t : Nat)
    (hwf : wfCronExpr e = true)
    (hmin : overFrequentMinute ((jsTrimSplitWs e).headD []) = false) :
    (∀ m, computeNextRun e t = some m →
      t < m ∧ m ≤ t + cronHorizonMinutes ∧
      matchesAllAt (jsTrimSplitWs e) m = true ∧
      ∀ k, t < k → k < m → matchesAllAt (jsTrimSplitWs e) k = false) ∧
    (computeNextRun e t = none →
      ∀ k, t < k → k ≤ t + cronHorizonMinutes →
        matchesAllAt (jsTrimSplitWs e) k = false) := by
  have hlen : (jsTrimSplitWs e).length = 5 := by
    unfold wfCronExpr at hwf
    split at hwf
    · simp_all
    · exact absurd hwf (by simp)
  constructor
  · intro m h
    unfold computeNextRun at h
    rw [if_pos hlen] at h
    obtain ⟨h1, h2, h3, h4⟩ := scanGen_some cronHorizonMinutes (t + 1) m h
    exact ⟨by omega, by omega, h3, fun k hk1 hk2 => h4 k (by omega) hk2⟩
  · intro h k hk1 hk2
    unfold computeNextRun at h
    rw [if_pos hlen] at h
    exact scanGen_none cronHorizonMinutes (t + 1) h k (by omega) (by omega)

/-- Witness for C4: the valid, floor-respecting expression `*/5 * * * *`
evaluated at the epoch minute returns minute 5, the earliest match. -/
theorem computeNextRun_earliest_match_witness :
    wfCronExpr "*/5 * * * *".toList = true ∧
    overFrequentMinute ((jsTrimSplitWs "*/5 * * * *".toList).headD []) =
      false ∧
    computeNextRun "*/5 * * * *".toList 0 = some 5 ∧
    (0 < 5 ∧ 5 ≤ 0 + cronHorizonMinutes ∧
      matchesAllAt (jsTrimSplitWs "*/5 * * * *".toList) 5 = true ∧
      ∀ k, 0 < k → k < 5 →
        matchesAllAt (jsTrimSplitWs "*/5 * * * *".toList) k = false) :=
  ⟨by decide, by decide, by decide,
    (computeNextRun_earliest_match "*/5 * * * *".toList 0 (by decide)
      (by decide)).1 5 (by decide)⟩

/-! ## C5/C6: `addJobs` validation, cap and sibling independence -/

theorem scheduleJob_accepted {validate : List Char → Bool} {e : List Char}
    (hv : validate e = true) (hl : (jsTrimSplitWs e).length = 5)
    (ho : overFrequentMinute ((jsTrimSplitWs e).headD []) = false)
    (jobId : Nat) (st : SchedState) :
    scheduleJob validate jobId e st =
      { st with tasks := st.tasks ++ [(jobId, e)] } := by
  unfold scheduleJob
  rw [if_neg (by rw [hv]; simp), if_neg (by rw [hl]; simp), if_neg (by
    rw [ho]; simp)]

theorem addJobsLoop_spec (validate : List Char → Bool) (appId : Nat) :
    ∀ (defs : List JobDef) (st : SchedState),
      ((addJobsLoop validate appId defs st).rows.map fun r =>
          (r.appId, r.name, r.schedule, r.action, r.config, r.isActive)) =
        (st.rows.map fun r =>
          (r.appId, r.name, r.schedule, r.action, r.config, r.isActive)) ++
        ((defs.filter (acceptJob validate)).map fun d =>
          (appId, d.name, d.schedule, d.action, d.config, true)) ∧
      (addJobsLoop validate appId defs st).tasks.map Prod.snd =
        st.tasks.map Prod.snd ++
        ((defs.filter (acceptJob validate)).map fun d => d.schedule) ∧
      (addJobsLoop validate appId defs st).warns =
        st.warns + (defs.countP fun d => ! acceptJob validate d) ∧
      (addJobsLoop validate appId defs st).rows.length =
        st.rows.length + (defs.filter (acceptJob validate)).length := by
  intro defs
  induction defs with
  | nil => intro st; simp [addJobsLoop]
  | cons d rest ih =>
    intro st
    by_cases hA : ALLOWED_ACTIONS.contains d.action = true
    case neg =>
      have hAf : ALLOWED_ACTIONS.contains d.action = false := by
        cases hv : ALLOWED_ACTIONS.contains d.action
        · rfl
        · exact absurd hv hA
      have hacc : acceptJob validate d = false := by
        unfold acceptJob; rw [hAf]; rfl
      have hloop : addJobsLoop validate appId (d :: rest) st =
          addJobsLoop validate appId rest { st with warns := st.warns + 1 } := by
        conv_lhs => unfold addJobsLoop
        rw [if_pos hA]
      obtain ⟨i1, i2, i3, i4⟩ := ih { st with warns := st.warns + 1 }
      rw [hloop]
      refine ⟨?_, ?_, ?_, ?_⟩
      · rw [i1]; simp [List.filter_cons, hacc]
      · rw [i2]; simp [List.filter_cons, hacc]
      · rw [i3]; simp [List.countP_cons, hacc]; omega
      · rw [i4]; simp [List.filter_cons, hacc]
    case pos =>
    have hAm : d.action ∈ ALLOWED_ACTIONS := by simpa using hA
    by_cases hV : validate d.schedule = true
    case neg =>
      have hVf : validate d.schedule = false := by
        cases hv : validate d.schedule
        · rfl
        · exact absurd hv hV
      have hacc : acceptJob validate d = false := by
        simp [acceptJob, hVf]
      have hloop : addJobsLoop validate appId (d :: rest) st =
          addJobsLoop validate appId rest { st with warns := st.warns + 1 } := by
        conv_lhs => unfold addJobsLoop
        rw [if_neg (by simp [hAm]), if_pos (by simp [hVf])]
      obtain ⟨i1, i2, i3, i4⟩ := ih { st with warns := st.warns + 1 }
      rw [hloop]
      refine ⟨?_, ?_, ?_, ?_⟩
      · rw [i1]; simp [List.filter_cons, hacc]
      · rw [i2]; simp [List.filter_cons, hacc]
      · rw [i3]; simp [List.countP_cons, hacc]; omega
      · rw [i4]; simp [List.filter_cons, hacc]
    case pos =>
    by_cases hL : (jsTrimSplitWs d.schedule).length = 5
    case neg =>
      have hacc : acceptJob validate d = false := by
        simp [acceptJob, hL]
      have hloop : addJobsLoop validate appId (d :: rest) st =
          addJobsLoop validate appId rest { st with warns := st.warns + 1 } := by
        conv_lhs => unfold addJobsLoop
        rw [if_neg (by simp [hAm]), if_neg (by simp [hV]), if_pos hL]
      obtain ⟨i1, i2, i3, i4⟩ := ih { st with warns := st.warns + 1 }
      rw [hloop]
      refine ⟨?_, ?_, ?_, ?_⟩
      · rw [i1]; simp [List.filter_cons, hacc]
      · rw [i2]; simp [List.filter_cons, hacc]
      · rw [i3]; simp [List.countP_cons, hacc]; omega
      · rw [i4]; simp [List.filter_cons, hacc]
    case pos =>
    by_cases hO :
        overFrequentMinute ((jsTrimSplitWs d.schedule).headD []) = true
    case pos =>
      have hacc : acceptJob validate d = false := by
        simp [acceptJob, hO]
        intro _ _ _
        simpa using hO
      have hloop : addJobsLoop validate appId (d :: rest) st =
          addJobsLoop validate appId rest { st with warns := st.warns + 1 } := by
        conv_lhs => unfold addJobsLoop
        rw [if_neg (by simp [hAm]), if_neg (by simp [hV]),
          if_neg (by simp [hL]), if_pos hO]
      obtain ⟨i1, i2, i3, i4⟩ := ih { st with warns := st.warns + 1 }
      rw [hloop]
      refine ⟨?_, ?_, ?_, ?_⟩
      · rw [i1]; simp [List.filter_cons, hacc]
      · rw [i2]; simp [List.filter_cons, hacc]
      · rw [i3]; simp [List.countP_cons, hacc]; omega
      · rw [i4]; simp [List.filter_cons, hacc]
    case neg =>
      have hO' :
          overFrequentMinute ((jsTrimSplitWs d.schedule).headD []) = false := by
        cases hv : overFrequentMinute ((jsTrimSplitWs d.schedule).headD [])
        · rfl
        · exact absurd hv hO
      have hacc : acceptJob validate d = true := by
        simp [acceptJob, hAm, hV, hL]
        simpa using hO'
      have hsched := scheduleJob_accepted hV hL hO' st.nextId
        { st with
          rows := st.rows ++
            [⟨st.nextId, appId, d.name, d.schedule, d.action,
              d.config, true⟩],
          nextId := st.nextId + 1 }
      have hloop :
          addJobsLoop validate appId (d :: rest) st =
            addJobsLoop validate appId rest
              { st with
                rows := st.rows ++
                  [⟨st.nextId, appId, d.name, d.schedule, d.action,
                    d.config, true⟩],
                tasks := st.tasks ++ [(st.nextId, d.schedule)],
                nextId := st.nextId + 1 } := by
        conv_lhs => unfold addJobsLoop
        rw [if_neg (by simp [hAm]), if_neg (by simp [hV]),
          if_neg (by simp [hL]), if_neg (by rw [hO']; simp)]
        exact congrArg (addJobsLoop validate appId rest) hsched
      obtain ⟨i1, i2, i3, i4⟩ := ih
        { st with
          rows := st.rows ++
            [⟨st.nextId, appId, d.name, d.schedule, d.action,
              d.config, true⟩],
          tasks := st.tasks ++ [(st.nextId, d.schedule)],
          nextId := st.nextId + 1 }
      rw [hloop]
      refine ⟨?_, ?_, ?_, ?_⟩
      · rw [i1]; simp [List.filter_cons, hacc]
      · rw [i2]; simp [List.filter_cons, hacc]
      · rw [i3]; simp [List.countP_cons, hacc]
      · rw [i4]; simp [List.filter_cons, hacc]; omega

theorem acceptJob_false_of_bad {validate : List Char → Bool} {d : JobDef}
    (h : overFrequentMinute ((jsTrimSplitWs d.schedule).headD []) = true ∨
      (jsTrimSplitWs d.schedule).length ≠ 5 ∨
      validate d.schedule = false ∨
      ALLOWED_ACTIONS.contains d.action = false) :
    acceptJob validate d = false := by
  rcases h with h | h | h | h
  · simp [acceptJob, h]
    intro _ _ _
    simpa using h
  · simp [acceptJob, h]
  · simp [acceptJob, h]
  · unfold acceptJob
    rw [h]
    rfl

/-- C6: a job definition whose minute field is `*` or `*/N` with N<5, or
whose schedule does not split into exactly 5 fields, or which node-cron's
`validate` rejects (the mechanism by which malformed field syntax is caught;
`validate` is an external dependency, modelled as a parameter), or whose
action kind is outside the closed whitelist, fails the loop's acceptance
predicate (part 3), so it is never persisted and gets no trigger; parts 1–2
characterise the rows and triggers produced by `addJobs` as exactly those of
the accepted definitions among the first 5, each processed independently of
its siblings. -/
theorem addJobs_rejects_invalid_definitions :
    ∀ (validate : List Char → Bool) (appId : Nat) (defs : List JobDef)
      (st : SchedState),
      (((addJobs validate appId defs st).rows.map fun r =>
          (r.appId, r.name, r.schedule, r.action, r.config, r.isActive)) =
        (st.rows.map fun r =>
          (r.appId, r.name, r.schedule, r.action, r.config, r.isActive)) ++
        (((defs.take MAX_JOBS_PER_APP).filter (acceptJob validate)).map
          fun d => (appId, d.name, d.schedule, d.action, d.config, true))) ∧
      ((addJobs validate appId defs st).tasks.map Prod.snd =
        st.tasks.map Prod.snd ++
        (((defs.take MAX_JOBS_PER_APP).filter (acceptJob validate)).map
          fun d => d.schedule)) ∧
      (∀ d : JobDef,
        overFrequentMinute ((jsTrimSplitWs d.schedule).headD []) = true ∨
        (jsTrimSplitWs d.schedule).length ≠ 5 ∨
        validate d.schedule = false ∨
        ALLOWED_ACTIONS.contains d.action = false →
        acceptJob validate d = false) := by
  intro validate appId defs st
  obtain ⟨i1, i2, _, _⟩ :=
    addJobsLoop_spec validate appId (defs.take MAX_JOBS_PER_APP) st
  exact ⟨i1, i2, fun d hd => acceptJob_false_of_bad hd⟩

/-- Witness for C6: with an always-true `validate`, the over-frequent
expression `* * * * *` and the unknown action `bogus` are both rejected by
the acceptance predicate. -/
theorem addJobs_rejects_invalid_definitions_witness :
    acceptJob (fun _ => true)
      ⟨"j1".toList, "* * * * *".toList, [], "send_reminder".toList, {}⟩ =
      false ∧
    acceptJob (fun _ => true)
      ⟨"j2".toList, "0 12 * * *".toList, [], "bogus".toList, {}⟩ = false :=
  ⟨(addJobs_rejects_invalid_definitions (fun _ => true) 1 [] ⟨[], [], 0, 0⟩).2.2
      _ (Or.inl (by decide)),
    (addJobs_rejects_invalid_definitions (fun _ => true) 1 [] ⟨[], [], 0, 0⟩).2.2
      _ (Or.inr (Or.inr (Or.inr (by decide))))⟩

/-- C5 counterexample: `addJobs` called with 7 definitions (the first with an
unknown action, the rest valid) persists 4 rows, not exactly 5, and logs a
single warning — none for the 2 definitions silently dropped by the
`slice(0, 5)` cap. -/
theorem addJobs_seven_defs_counterexample :
    (addJobs (fun _ => true) 1
      (⟨"j0".toList, "0 12 * * *".toList, [], "bogus".toList, {}⟩ ::
        List.replicate 6
          ⟨"j".toList, "0 12 * * *".toList, [], "send_reminder".toList, {}⟩)
      ⟨[], [], 0, 0⟩).rows.length = 4 ∧
    (addJobs (fun _ => true) 1
      (⟨"j0".toList, "0 12 * * *".toList, [], "bogus".toList, {}⟩ ::
        List.replicate 6
          ⟨"j".toList, "0 12 * * *".toList, [], "send_reminder".toList, {}⟩)
      ⟨[], [], 0, 0⟩).warns = 1 := by
  constructor <;> rfl

/-- C5 amended: `addJobs` considers only the first `MAX_JOBS_PER_APP = 5`
definitions — the call is literally equivalent to one given just those 5, so
the excess is dropped silently, never appearing as a Job or producing a
warning — and a single call persists at most 5 rows (all 5 exactly when
every retained definition passes validation, as in the witnessed run of the
characterisation theorems). -/
theorem addJobs_cap_five :
    ∀ (validate : List Char → Bool) (appId : Nat) (defs : List JobDef)
      (st : SchedState),
      addJobs validate appId defs st =
        addJobs validate appId (defs.take MAX_JOBS_PER_APP) st ∧
      (addJobs validate appId defs st).rows.length ≤
        st.rows.length + MAX_JOBS_PER_APP := by
  intro validate appId defs st
  constructor
  · unfold addJobs
    conv_rhs => rw [List.take_take, min_self]
  · obtain ⟨_, _, _, i4⟩ :=
      addJobsLoop_spec validate appId (defs.take MAX_JOBS_PER_APP) st
    unfold addJobs
    rw [i4]
    have h1 :
        ((defs.take MAX_JOBS_PER_APP).filter (acceptJob validate)).length ≤
          MAX_JOBS_PER_APP :=
      le_trans (List.length_filter_le _ _)
        (by simp)
    omega

/-- C2 (spec-modelled): `runTriggeredJobs(applicationId, writtenKey)`
executes exactly the still-active jobs of that application whose
configuration names `writtenKey` in `triggerOnKey` — no clock or trigger map
is consulted. -/
theorem runTriggeredJobs_runs_matching_jobs :
    ∀ (st : SchedState) (appId : Nat) (writtenKey : List Char) (j : JobRow),
      j ∈ runTriggeredJobs st appId writtenKey ↔
        j ∈ st.rows ∧ j.appId = appId ∧ j.isActive = true ∧
          j.config.triggerOnKey = some writtenKey := by
  intro st appId writtenKey j
  unfold runTriggeredJobs
  rw [List.mem_filter]
  simp [Bool.and_eq_true, and_assoc]

/-- C3 (code bug): a fully successful `fetch_url` run — public hostname,
public resolved IP, status 200, body `42` parsing as JSON — inserts exactly
one DataPoint, under the output key `rate`, and no `rate_updated_at` row,
although the system prompt in aiService documents "after every successful
fetch_url, the system AUTOMATICALLY stores {outputKey}_updated_at". -/
theorem fetchUrl_no_updated_at_row :
    ((handleFetchUrl
        (fun _ => some ⟨"https:".toList, "api.example.com".toList⟩)
        (fun _ => some (Json.num 42)) 7 42
        { url := some "https://api.example.com/rate".toList,
          outputKey := some "rate".toList }
        (some "93.184.216.34".toList)
        (some ⟨200, none, [['4', '2']], .ended⟩)).inserts.map
      fun r => r.key) = ["rate".toList] := by
  rfl

/-! ## C7: redirect blocking and the body-size cap -/

theorem readChunks_too_large :
    ∀ (chunks : List (List Char)) (acc : List Char) (total : Nat)
      (tail : StreamTail),
      total ≤ MAX_BODY_BYTES →
      MAX_BODY_BYTES < total + (chunks.map List.length).sum →
      readChunks acc total chunks tail = .failTooLarge := by
  intro chunks
  induction chunks with
  | nil =>
    intro acc total tail h1 h2
    simp at h2
    omega
  | cons c rest ih =>
    intro acc total tail h1 h2
    unfold readChunks
    by_cases hc : total + c.length > MAX_BODY_BYTES
    · rw [if_pos hc]
    · rw [if_neg hc]
      apply ih
      · omega
      · simp only [List.map_cons, List.sum_cons] at h2
        omega

theorem runFetch_redirect {r : NetResponse} (h1 : 300 ≤ r.status)
    (h2 : r.status ≤ 399) : runFetch r = .failRedirect := by
  unfold runFetch
  rw [if_pos ⟨h1, by omega⟩]

theorem runFetch_clOver {r : NetResponse} {s : List Char} {n : Int}
    (hnr : ¬(300 ≤ r.status ∧ r.status ≤ 399))
    (hcl : r.contentLength = some s) (hne : s ≠ [])
    (hn : jsParseIntDec s = some n) (hbig : (MAX_BODY_BYTES : Int) < n) :
    runFetch r = .failTooLarge := by
  unfold runFetch
  rw [if_neg (by omega)]
  rw [hcl]
  simp only [hne, hn]
  rw [if_pos (by simp [hne, jsLt, hbig])]

theorem runFetch_stream_too_large {r : NetResponse}
    (hnr : ¬(300 ≤ r.status ∧ r.status ≤ 399))
    (hbig : MAX_BODY_BYTES < (r.chunks.map List.length).sum) :
    runFetch r = .failTooLarge := by
  unfold runFetch
  rw [if_neg (by omega)]
  by_cases hcl :
      (match r.contentLength with
        | some cl => cl ≠ [] && jsLt (some (MAX_BODY_BYTES : Int))
            (jsParseIntDec cl)
        | none => false) = true
  · rw [if_pos hcl]
  · rw [if_neg hcl]
    exact readChunks_too_large r.chunks [] 0 r.tail (by omega) (by omega)

theorem handleFetchUrl_failed_fetch_no_insert
    {parseUrl : List Char → Option UrlParts}
    {jsonParse : List Char → Option Json} {jobId appId : Nat}
    {cfg : ActionConfig} {dns : Option (List Char)} {r : NetResponse}
    (hfail : ∀ b, runFetch r ≠ .ok b) :
    (handleFetchUrl parseUrl jsonParse jobId appId cfg dns
      (some r)).inserts = [] := by
  unfold handleFetchUrl
  cases hurl : cfg.url with
  | none => rfl
  | some u =>
    by_cases hu : u = []
    · simp [hu]
    · cases hpu : parseUrl u with
      | none => simp [hu, hpu]
      | some pu =>
        by_cases hproto : pu.protocol = ['h', 't', 't', 'p', 's', ':']
        · by_cases hhost : isPrivateHost pu.hostname
          · simp [hu, hpu, hproto, hhost]
          · cases dns with
            | none => simp [hu, hpu, hproto, hhost]
            | some ip =>
              by_cases hip : isPrivateHost ip
              · simp [hu, hpu, hproto, hhost, hip]
              · cases hrf : runFetch r with
                | ok body => exact absurd hrf (hfail body)
                | failRedirect => simp [hu, hpu, hproto, hhost, hip, hrf]
                | failTooLarge => simp [hu, hpu, hproto, hhost, hip, hrf]
                | failError => simp [hu, hpu, hproto, hhost, hip, hrf]
        · simp [hu, hpu, hproto]

/-- C7: a 3xx response is never followed (the fetch fails as a redirect
rejection); a declared `Content-Length` over the 1 MiB cap fails the fetch up
front; a body whose bytes exceed the cap aborts mid-stream even with the
`Content-Length` header absent or understated (no hypothesis on the header);
and in each of these cases the handler writes no DataPoint for the run. -/
theorem fetchUrl_redirect_and_size_cap :
    (∀ r : NetResponse, 300 ≤ r.status → r.status ≤ 399 →
      runFetch r = .failRedirect) ∧
    (∀ (r : NetResponse) (s : List Char) (n : Int),
      ¬(300 ≤ r.status ∧ r.status ≤ 399) → r.contentLength = some s →
      s ≠ [] → jsParseIntDec s = some n → (MAX_BODY_BYTES : Int) < n →
      runFetch r = .failTooLarge) ∧
    (∀ r : NetResponse, ¬(300 ≤ r.status ∧ r.status ≤ 399) →
      MAX_BODY_BYTES < (r.chunks.map List.length).sum →
      runFetch r = .failTooLarge) ∧
    (∀ (parseUrl : List Char → Option UrlParts)
        (jsonParse : List Char → Option Json) (jobId appId : Nat)
        (cfg : ActionConfig) (dns : Option (List Char)) (r : NetResponse),
      (300 ≤ r.status ∧ r.status ≤ 399) ∨
        MAX_BODY_BYTES < (r.chunks.map List.length).sum →
      (handleFetchUrl parseUrl jsonParse jobId appId cfg dns
        (some r)).inserts = []) := by
  refine ⟨fun r h1 h2 => runFetch_redirect h1 h2,
    fun r s n hnr hcl hne hn hbig => runFetch_clOver hnr hcl hne hn hbig,
    fun r hnr hbig => runFetch_stream_too_large hnr hbig, ?_⟩
  intro parseUrl jsonParse jobId appId cfg dns r hcase
  by_cases h3 : 300 ≤ r.status ∧ r.status ≤ 399
  · exact handleFetchUrl_failed_fetch_no_insert fun b hb => by
      rw [runFetch_redirect h3.1 h3.2] at hb
      exact FetchResult.noConfusion hb
  · rcases hcase with h | h
    · exact absurd h h3
    · exact handleFetchUrl_failed_fetch_no_insert fun b hb => by
        rw [runFetch_stream_too_large h3 h] at hb
        exact FetchResult.noConfusion hb

/-- Witness for C7 at concrete responses: a 301 is rejected as a redirect, a
declared Content-Length of 2000000 is rejected up front, a 2 MiB body with an
understated Content-Length of `"10"` is aborted mid-stream, and the redirect
case produces no insert through the handler. -/
theorem fetchUrl_redirect_and_size_cap_witness :
    runFetch ⟨301, none, [], .ended⟩ = .failRedirect ∧
    runFetch ⟨200, some "2000000".toList, [], .ended⟩ = .failTooLarge ∧
    runFetch ⟨200, some "10".toList, [List.replicate 2097152 'a'], .ended⟩ =
      .failTooLarge ∧
    (handleFetchUrl (fun _ => some ⟨"https:".toList, "x.example".toList⟩)
      (fun _ => none) 1 2 { url := some "https://x.example/".toList }
      (some "93.184.216.34".toList)
      (some ⟨301, none, [], .ended⟩)).inserts = [] := by
  refine ⟨?_, ?_, ?_, ?_⟩
  · exact fetchUrl_redirect_and_size_cap.1 _ (by decide) (by decide)
  · exact fetchUrl_redirect_and_size_cap.2.1 _ "2000000".toList 2000000
      (by decide) rfl (by decide) (by decide) (by decide)
  · exact fetchUrl_redirect_and_size_cap.2.2.1 _ (by decide)
      (by rw [List.map_cons, List.map_nil, List.length_replicate,
        List.sum_cons, List.sum_nil]; decide)
  · exact fetchUrl_redirect_and_size_cap.2.2.2 _ _ 1 2 _ _ _
      (Or.inl (by decide))

/-! ## C8/C9: aggregation -/

/-- C8: the per-row extraction accepts a bare number directly; on an object
value it takes the field named `dataKey`, else (when that is absent or null)
the generic `value` field, else the generic `result` field; rows yielding
nothing numeric are discarded; and over window samples `[10, 20, 30]` the
five statistics come out as avg 20, sum 60, count 3, max 30, min 10
(end-to-end through the handler, stored under the configured output key). -/
theorem aggregate_extraction_and_statistics :
    (∀ (dk : List Char) (q : Rat), aggExtract dk (.num q) = some q) ∧
    (∀ (dk : List Char) (fs : List (List Char × Json)) (q : Rat),
      jget (.obj fs) dk = some (.num q) →
      aggExtract dk (.obj fs) = some q) ∧
    (∀ (dk : List Char) (fs : List (List Char × Json)) (q : Rat),
      (jget (.obj fs) dk = none ∨ jget (.obj fs) dk = some .null) →
      jget (.obj fs) "value".toList = some (.num q) →
      aggExtract dk (.obj fs) = some q) ∧
    (∀ (dk : List Char) (fs : List (List Char × Json)) (q : Rat),
      (jget (.obj fs) dk = none ∨ jget (.obj fs) dk = some .null) →
      (jget (.obj fs) "value".toList = none ∨
        jget (.obj fs) "value".toList = some .null) →
      jget (.obj fs) "result".toList = some (.num q) →
      aggExtract dk (.obj fs) = some q) ∧
    (∀ (dk s : List Char), aggExtract dk (.str s) = none) ∧
    (∀ (dk : List Char) (fs : List (List Char × Json)) (s : List Char),
      jget (.obj fs) dk = some (.str s) →
      aggExtract dk (.obj fs) = none) ∧
    (∀ op : List Char,
      (handleAggregateData 0
        [⟨42, "weight".toList, .num 10, 0⟩, ⟨42, "weight".toList, .num 20, 0⟩,
          ⟨42, "weight".toList, .num 30, 0⟩] 42
        { dataKey := some "weight".toList, operation := some op,
          outputKey := some "w".toList }) =
      (if op = "avg".toList then [⟨42, "w".toList, .num 20⟩]
        else if op = "sum".toList then [⟨42, "w".toList, .num 60⟩]
        else if op = "count".toList then [⟨42, "w".toList, .num 3⟩]
        else if op = "max".toList then [⟨42, "w".toList, .num 30⟩]
        else if op = "min".toList then [⟨42, "w".toList, .num 10⟩]
        else [])) := by
  refine ⟨fun dk q => rfl, ?_, ?_, ?_, fun dk s => rfl, ?_, ?_⟩
  · intro dk fs q h
    simp [aggExtract, h, jsCoalesce]
  · intro dk fs q h hv
    have hv' : jget (Json.obj fs) ['v', 'a', 'l', 'u', 'e'] =
      some (Json.num q) := hv
    rcases h with h | h <;> simp [aggExtract, h, hv', jsCoalesce]
  · intro dk fs q h hv hr
    have hr' : jget (Json.obj fs) ['r', 'e', 's', 'u', 'l', 't'] =
      some (Json.num q) := hr
    have hv' : jget (Json.obj fs) ['v', 'a', 'l', 'u', 'e'] = none ∨
        jget (Json.obj fs) ['v', 'a', 'l', 'u', 'e'] = some Json.null := hv
    rcases h with h | h <;> rcases hv' with hv2 | hv2 <;>
      simp [aggExtract, h, hv2, hr', jsCoalesce]
  · intro dk fs s h
    simp [aggExtract, h, jsCoalesce]
  · intro op
    have hnum :
        aggNumbers 0
          [⟨42, "weight".toList, .num 10, 0⟩,
            ⟨42, "weight".toList, .num 20, 0⟩,
            ⟨42, "weight".toList, .num 30, 0⟩] 42
          { dataKey := some "weight".toList, operation := some op,
            outputKey := some "w".toList } = [10, 20, 30] := by
      simp +decide [aggNumbers, aggWindowRows, aggDataKey, aggWindowDays,
        aggExtract, List.filter, List.filterMap]
    have hck : cronKeyOk ['w'] = true := by decide
    have hdk : aggDataKey
        { dataKey := some "weight".toList, operation := some op,
          outputKey := some "w".toList } = "weight".toList := rfl
    unfold handleAggregateData
    rw [if_neg (by rw [hdk]; decide)]
    rw [hnum]
    simp only [aggOperation, aggDataKey, Option.getD_some, List.isEmpty_cons,
      Bool.false_eq_true, if_false]
    by_cases h1 : op = "avg".toList
    · simp +decide [h1, sumRat, hck]
      norm_num
    · by_cases h2 : op = "sum".toList
      · simp +decide [h1, h2, sumRat, hck]
        norm_num
      · by_cases h3 : op = "count".toList
        · simp +decide [h1, h2, h3, hck]
        · by_cases h4 : op = "max".toList
          · simp +decide [h1, h2, h3, h4, hck]
          · by_cases h5 : op = "min".toList
            · simp +decide [h1, h2, h3, h4, h5, hck]
            · simp [show op ≠ ['a', 'v', 'g'] from h1,
                show op ≠ ['s', 'u', 'm'] from h2,
                show op ≠ ['c', 'o', 'u', 'n', 't'] from h3,
                show op ≠ ['m', 'a', 'x'] from h4,
                show op ≠ ['m', 'i', 'n'] from h5]

/-- Witness for C8: the object row `{weight: 70}` yields the sample 70 under
data key `weight`, and the end-to-end `avg` example over `[10, 20, 30]`
stores 20. -/
theorem aggregate_extraction_and_statistics_witness :
    jget (Json.obj [("weight".toList, Json.num 70)]) "weight".toList =
      some (Json.num 70) ∧
    aggExtract "weight".toList (Json.obj [("weight".toList, Json.num 70)]) =
      some 70 ∧
    (handleAggregateData 0
      [⟨42, "weight".toList, .num 10, 0⟩, ⟨42, "weight".toList, .num 20, 0⟩,
        ⟨42, "weight".toList, .num 30, 0⟩] 42
      { dataKey := some "weight".toList, operation := some "avg".toList,
        outputKey := some "w".toList }) = [⟨42, "w".toList, .num 20⟩] := by
  refine ⟨rfl, ?_, ?_⟩
  · exact aggregate_extraction_and_statistics.2.1 "weight".toList _ 70 rfl
  · have h := aggregate_extraction_and_statistics.2.2.2.2.2.2 "avg".toList
    simpa using h

/-- C9: an `aggregate_data` run whose window yields zero numeric samples, or
whose configured operation is not one of avg/sum/count/max/min, inserts no
DataPoint at all — no zero, null or placeholder row. -/
theorem aggregate_no_samples_or_unknown_op_writes_nothing :
    ∀ (now : Int) (store : List DataRow) (appId : Nat) (cfg : ActionConfig),
      (aggNumbers now store appId cfg = [] →
        handleAggregateData now store appId cfg = []) ∧
      (aggOperation cfg ∉ ["avg".toList, "sum".toList, "count".toList,
          "max".toList, "min".toList] →
        handleAggregateData now store appId cfg = []) := by
  intro now store appId cfg
  constructor
  · intro h
    unfold handleAggregateData
    by_cases hdk : aggDataKey cfg = []
    · rw [if_pos hdk]
    · rw [if_neg hdk]
      simp [h]
  · intro h
    unfold handleAggregateData
    by_cases hdk : aggDataKey cfg = []
    · rw [if_pos hdk]
    · rw [if_neg hdk]
      have h1 : aggOperation cfg ≠ "avg".toList := fun he => h (by simp [he])
      have h2 : aggOperation cfg ≠ "sum".toList := fun he => h (by simp [he])
      have h3 : aggOperation cfg ≠ "count".toList := fun he => h (by simp [he])
      have h4 : aggOperation cfg ≠ "max".toList := fun he => h (by simp [he])
      have h5 : aggOperation cfg ≠ "min".toList := fun he => h (by simp [he])
      by_cases hne : (aggNumbers now store appId cfg).isEmpty = true
      · simp [hne]
      · simp [hne, show aggOperation cfg ≠ ['a', 'v', 'g'] from h1,
          show aggOperation cfg ≠ ['s', 'u', 'm'] from h2,
          show aggOperation cfg ≠ ['c', 'o', 'u', 'n', 't'] from h3,
          show aggOperation cfg ≠ ['m', 'a', 'x'] from h4,
          show aggOperation cfg ≠ ['m', 'i', 'n'] from h5]

/-- Witness for C9: an empty store yields no samples and no insert, and the
unknown operation `median` yields no insert even with samples present. -/
theorem aggregate_no_samples_or_unknown_op_writes_nothing_witness :
    aggNumbers 0 [] 42
      { dataKey := some "weight".toList, operation := some "avg".toList } =
      [] ∧
    handleAggregateData 0 [] 42
      { dataKey := some "weight".toList, operation := some "avg".toList } =
      [] ∧
    handleAggregateData 0 [⟨42, "weight".toList, .num 10, 0⟩] 42
      { dataKey := some "weight".toList, operation := some "median".toList } =
      [] := by
  refine ⟨by decide, ?_, ?_⟩
  · exact (aggregate_no_samples_or_unknown_op_writes_nothing 0 [] 42 _).1
      (by decide)
  · exact (aggregate_no_samples_or_unknown_op_writes_nothing 0
      [⟨42, "weight".toList, .num 10, 0⟩] 42 _).2 (by decide)

/-! ## C10: prototype-pollution guard on the dot-path extraction -/

theorem pathWalk_blocked :
    ∀ (parts : List (List Char)) (cur : Option Json)
      (reads : List (List Char)),
      (∃ p ∈ parts, BLOCKED_PATH_KEYS.contains p = true) →
      (pathWalk cur reads parts).1 = none := by
  intro parts
  induction parts with
  | nil =>
    intro cur reads h
    simp at h
  | cons p rest ih =>
    intro cur reads h
    unfold pathWalk
    by_cases hb : BLOCKED_PATH_KEYS.contains p = true
    · rw [if_pos hb]
    · rw [if_neg hb]
      obtain ⟨q, hq, hqb⟩ := h
      have hqr : q ∈ rest := by
        rcases List.mem_cons.mp hq with h1 | h1
        · exact absurd (h1 ▸ hqb) hb
        · exact h1
      cases cur with
      | none => exact ih none reads ⟨q, hqr, hqb⟩
      | some c =>
        show (if isJsObject c = true then
            pathWalk (jget c p) (reads ++ [p]) rest
          else pathWalk (some c) reads rest).1 = none
        by_cases hobj : isJsObject c = true
        · rw [if_pos hobj]
          exact ih (jget c p) (reads ++ [p]) ⟨q, hqr, hqb⟩
        · rw [if_neg hobj]
          exact ih (some c) reads ⟨q, hqr, hqb⟩

theorem extractValue_blocked {parsed : Json} {dp : List Char}
    (h : ∃ p ∈ splitOnC '.' (stripDollar dp),
      BLOCKED_PATH_KEYS.contains p = true) :
    extractValue parsed dp = parsed := by
  unfold extractValue
  have h1 := pathWalk_blocked (splitOnC '.' (stripDollar dp)) (some parsed) [] h
  simp only [h1]

theorem pathWalk_reads_unblocked :
    ∀ (parts : List (List Char)) (cur : Option Json)
      (reads : List (List Char)),
      (∀ k ∈ reads, BLOCKED_PATH_KEYS.contains k = false) →
      ∀ k ∈ (pathWalk cur reads parts).2,
        BLOCKED_PATH_KEYS.contains k = false := by
  intro parts
  induction parts with
  | nil =>
    intro cur reads hr k hk
    exact hr k hk
  | cons p rest ih =>
    intro cur reads hr k hk
    unfold pathWalk at hk
    by_cases hb : BLOCKED_PATH_KEYS.contains p = true
    · rw [if_pos hb] at hk
      exact hr k hk
    · rw [if_neg hb] at hk
      have hbf : BLOCKED_PATH_KEYS.contains p = false := by
        cases hv : BLOCKED_PATH_KEYS.contains p
        · rfl
        · exact absurd hv hb
      have hr' : ∀ j ∈ reads ++ [p], BLOCKED_PATH_KEYS.contains j = false := by
        intro j hj
        rcases List.mem_append.mp hj with h1 | h1
        · exact hr j h1
        · rw [List.mem_singleton.mp h1]
          exact hbf
      cases cur with
      | none => exact ih none reads hr k hk
      | some c =>
        have hk2 : k ∈ (if isJsObject c = true then
            pathWalk (jget c p) (reads ++ [p]) rest
          else pathWalk (some c) reads rest).2 := hk
        by_cases hobj : isJsObject c = true
        · rw [if_pos hobj] at hk2
          exact ih (jget c p) (reads ++ [p]) hr' k hk2
        · rw [if_neg hobj] at hk2
          exact ih (some c) reads hr k hk2

theorem handleFetchUrl_success {parseUrl : List Char → Option UrlParts}
    {jsonParse : List Char → Option Json} {jobId appId : Nat}
    {cfg : ActionConfig} {u : List Char} {pu : UrlParts} {ip : List Char}
    {r : NetResponse} {body : List Char}
    (hurl : cfg.url = some u) (hu : u ≠ [])
    (hpu : parseUrl u = some pu)
    (hproto : pu.protocol = ['h', 't', 't', 'p', 's', ':'])
    (hhost : isPrivateHost pu.hostname = false)
    (hip : isPrivateHost ip = false)
    (hrf : runFetch r = .ok body) :
    (handleFetchUrl parseUrl jsonParse jobId appId cfg (some ip)
        (some r)).inserts.map (fun row => row.value) =
      [match jsonParse body with
        | none => .str body
        | some parsed =>
          match cfg.dataPath with
          | some dp => if dp = [] then parsed else extractValue parsed dp
          | none => parsed] := by
  unfold handleFetchUrl
  rw [hurl]
  simp only [hu, hpu, hproto, hhost, hip, hrf]
  simp

/-- C10: when the parsed JSON body is extracted along a configured dot path
containing a `__proto__`, `constructor` or `prototype` segment, the
extraction is abandoned — the stored value is the whole parsed body — and
the walk never reads a property through a blocked key (every key actually
looked up is unblocked, for every path). -/
theorem fetchUrl_blocked_path_stores_whole_body :
    (∀ (parsed : Json) (dp : List Char),
      (∃ p ∈ splitOnC '.' (stripDollar dp),
        BLOCKED_PATH_KEYS.contains p = true) →
      extractValue parsed dp = parsed) ∧
    (∀ (parsed : Json) (dp : List Char),
      ∀ k ∈ (pathWalk (some parsed) [] (splitOnC '.' (stripDollar dp))).2,
        BLOCKED_PATH_KEYS.contains k = false) ∧
    (∀ (parseUrl : List Char → Option UrlParts)
        (jsonParse : List Char → Option Json) (jobId appId : Nat)
        (cfg : ActionConfig) (u : List Char) (pu : UrlParts) (ip : List Char)
        (r : NetResponse) (body : List Char) (parsed : Json) (dp : List Char),
      cfg.url = some u → u ≠ [] → parseUrl u = some pu →
      pu.protocol = "https:".toList → isPrivateHost pu.hostname = false →
      isPrivateHost ip = false → runFetch r = .ok body →
      jsonParse body = some parsed → cfg.dataPath = some dp → dp ≠ [] →
      (∃ p ∈ splitOnC '.' (stripDollar dp),
        BLOCKED_PATH_KEYS.contains p = true) →
      (handleFetchUrl parseUrl jsonParse jobId appId cfg (some ip)
        (some r)).inserts.map (fun row => row.value) = [parsed]) := by
  refine ⟨fun parsed dp h => extractValue_blocked h,
    fun parsed dp => pathWalk_reads_unblocked _ (some parsed) [] (by simp),
    ?_⟩
  intro parseUrl jsonParse jobId appId cfg u pu ip r body parsed dp hurl hu
    hpu hproto hhost hip hrf hjp hdp hdpne hblk
  rw [handleFetchUrl_success hurl hu hpu hproto hhost hip hrf]
  rw [hjp, hdp]
  show [if dp = [] then parsed else extractValue parsed dp] = [parsed]
  rw [if_neg hdpne, extractValue_blocked hblk]

/-- Witness for C10 at a concrete run: data path `$.a.__proto__.b` over the
parsed body `{a: 1}` stores the whole parsed object. -/
theorem fetchUrl_blocked_path_stores_whole_body_witness :
    extractValue (Json.obj [("a".toList, Json.num 1)])
      "$.a.__proto__.b".toList = Json.obj [("a".toList, Json.num 1)] ∧
    (handleFetchUrl (fun _ => some ⟨"https:".toList, "x.example".toList⟩)
      (fun _ => some (Json.obj [("a".toList, Json.num 1)])) 1 2
      { url := some "https://x.example/".toList,
        dataPath := some "$.a.__proto__.b".toList,
        outputKey := some "out".toList }
      (some "93.184.216.34".toList)
      (some ⟨200, none, [['x']], .ended⟩)).inserts.map
        (fun row => row.value) = [Json.obj [("a".toList, Json.num 1)]] := by
  constructor
  · exact fetchUrl_blocked_path_stores_whole_body.1 _ _ (by decide)
  · exact fetchUrl_blocked_path_stores_whole_body.2.2
      (fun _ => some ⟨"https:".toList, "x.example".toList⟩)
      (fun _ => some (Json.obj [("a".toList, Json.num 1)])) 1 2
      { url := some "https://x.example/".toList,
        dataPath := some "$.a.__proto__.b".toList,
        outputKey := some "out".toList }
      "https://x.example/".toList ⟨"https:".toList, "x.example".toList⟩
      "93.184.216.34".toList ⟨200, none, [['x']], .ended⟩ ['x']
      (Json.obj [("a".toList, Json.num 1)]) "$.a.__proto__.b".toList
      rfl (by decide) rfl rfl (by decide) (by decide) rfl rfl rfl (by decide)
      (by decide)
